import Mathlib

/-!
Formal model of the MikaniroBytes upload-intake and storage-placement
pipeline (`backend/app/routers/files/*.py`, `backend/app/utils/preview*.py`,
`backend/app/routers/admin/helpers.py`).

Python strings are modelled as lists of characters (`Str`), file contents as
lists of bytes (`List Nat`), and the combination of local filesystem and
database session as an explicit state record threaded through each operation.
Every definition mirrors the source function it is named after.
-/

set_option maxHeartbeats 1000000
set_option maxRecDepth 4096

deriving instance DecidableEq for Except

namespace Mikaniro

/-- Python strings are modelled as lists of characters. -/
abbrev Str := List Char

/-! ## `_sanitize_archive_path` (files/helpers.py, lines 232-254) -/

/-- `path_in_archive.lstrip("/\\")`: drop leading slashes and backslashes. -/
def stripLeadingSeps (p : Str) : Str :=
  p.dropWhile (fun c => c == '/' || c == '\\')

/-- `p.replace("\\", "/")`: normalise Windows separators. -/
def normSlashes (p : Str) : Str :=
  p.map (fun c => if c == '\\' then '/' else c)

/-- Python `p.split("/")`.  Always yields at least one segment; adjacent
separators yield empty segments, exactly as in Python. -/
def splitSlash : Str → List Str
  | [] => [[]]
  | c :: rest =>
    if c == '/' then [] :: splitSlash rest
    else
      match splitSlash rest with
      | [] => [[c]]
      | s :: ss => (c :: s) :: ss

/-- Python `"/".join(parts)`. -/
def joinSlash : List Str → Str
  | [] => []
  | [s] => s
  | s :: rest => s ++ '/' :: joinSlash rest

/-- The filter of `_sanitize_archive_path`: a segment is kept unless it is
`""`, `"."` or `".."`. -/
def keepSeg (s : Str) : Bool :=
  !(s == [] || s == ['.'] || s == ['.', '.'])

/-- The list of segments `parts` accumulated by `_sanitize_archive_path`. -/
def sanitizeParts (p : Str) : List Str :=
  (splitSlash (normSlashes (stripLeadingSeps p))).filter keepSeg

/-- `_sanitize_archive_path` from files/helpers.py. -/
def sanitize_archive_path (p : Str) : Str :=
  joinSlash (sanitizeParts p)

/-! Basic facts about `splitSlash` and `joinSlash`. -/

theorem splitSlash_ne_nil (p : Str) : splitSlash p ≠ [] := by
  induction p with
  | nil => simp [splitSlash]
  | cons c rest ih =>
    simp only [splitSlash]
    split
    · simp
    · cases h : splitSlash rest with
      | nil => simp
      | cons s ss => simp

theorem mem_splitSlash_no_slash (p : Str) :
    ∀ s ∈ splitSlash p, '/' ∉ s := by
  induction p with
  | nil => intro s hs; simp [splitSlash] at hs; simp [hs]
  | cons c rest ih =>
    intro s hs
    simp only [splitSlash] at hs
    by_cases hc : c = '/'
    · simp [hc] at hs
      rcases hs with h | h
      · simp [h]
      · exact ih s h
    · simp [hc] at hs
      rcases hh : splitSlash rest with _ | ⟨t, ts⟩
      · exact absurd hh (splitSlash_ne_nil rest)
      · rw [hh] at hs
        simp at hs
        rcases hs with h | h
        · subst h
          intro hmem
          rcases List.mem_cons.mp hmem with h | h
          · exact hc h.symm
          · have := ih t (by rw [hh]; exact List.mem_cons_self _ _)
            exact this h
        · exact ih s (by rw [hh]; exact List.mem_cons_of_mem _ h)

theorem mem_splitSlash_subset (p : Str) :
    ∀ s ∈ splitSlash p, ∀ c ∈ s, c ∈ p := by
  induction p with
  | nil => intro s hs; simp [splitSlash] at hs; simp [hs]
  | cons a rest ih =>
    intro s hs c hc
    simp only [splitSlash] at hs
    by_cases ha : a = '/'
    · simp [ha] at hs
      rcases hs with h | h
      · simp [h] at hc
      · exact List.mem_cons_of_mem _ (ih s h c hc)
    · simp [ha] at hs
      rcases hh : splitSlash rest with _ | ⟨t, ts⟩
      · exact absurd hh (splitSlash_ne_nil rest)
      · rw [hh] at hs
        simp at hs
        rcases hs with h | h
        · subst h
          rcases List.mem_cons.mp hc with h | h
          · simp [h]
          · exact List.mem_cons_of_mem _
              (ih t (by rw [hh]; exact List.mem_cons_self _ _) c h)
        · exact List.mem_cons_of_mem _
            (ih s (by rw [hh]; exact List.mem_cons_of_mem _ h) c hc)

theorem joinSlash_head? (s : Str) (rest : List Str) (hs : s ≠ []) :
    (joinSlash (s :: rest)).head? = s.head? := by
  cases rest with
  | nil => rfl
  | cons t ts =>
    simp only [joinSlash]
    cases s with
    | nil => exact absurd rfl hs
    | cons a as => rfl

theorem normSlashes_no_backslash (p : Str) : '\\' ∉ normSlashes p := by
  intro h
  simp only [normSlashes, List.mem_map] at h
  obtain ⟨c, _, hc⟩ := h
  by_cases hb : c = '\\' <;> simp [hb] at hc

theorem sanitizeParts_props (p : Str) :
    ∀ s ∈ sanitizeParts p,
      s ≠ [] ∧ s ≠ ['.'] ∧ s ≠ ['.', '.'] ∧ '/' ∉ s ∧ '\\' ∉ s := by
  intro s hs
  simp only [sanitizeParts, List.mem_filter] at hs
  obtain ⟨hmem, hkeep⟩ := hs
  have hk : (¬s = [] ∧ ¬s = ['.']) ∧ ¬s = ['.', '.'] := by
    simpa [keepSeg] using hkeep
  refine ⟨hk.1.1, hk.1.2, hk.2, mem_splitSlash_no_slash _ s hmem, ?_⟩
  intro hb
  exact normSlashes_no_backslash (stripLeadingSeps p)
    (mem_splitSlash_subset _ s hmem '\\' hb)

theorem splitSlash_no_slash (s : Str) (h : '/' ∉ s) : splitSlash s = [s] := by
  induction s with
  | nil => rfl
  | cons c rest ih =>
    have hc : ¬ c = '/' := fun hh => h (by simp [hh])
    have hr : '/' ∉ rest := fun hh => h (List.mem_cons_of_mem _ hh)
    simp only [splitSlash, ih hr]
    simp [hc]

theorem splitSlash_append_slash (s t : Str) (h : '/' ∉ s) :
    splitSlash (s ++ '/' :: t) = s :: splitSlash t := by
  induction s with
  | nil => simp [splitSlash]
  | cons c rest ih =>
    have hc : ¬ c = '/' := fun hh => h (by simp [hh])
    have hr : '/' ∉ rest := fun hh => h (List.mem_cons_of_mem _ hh)
    have hcb : (c == '/') = false := by simp [hc]
    simp only [List.cons_append, splitSlash, hcb, Bool.false_eq_true, if_false]
    rw [show rest.append ('/' :: t) = rest ++ '/' :: t from rfl, ih hr]

theorem splitSlash_joinSlash (parts : List Str)
    (hne : parts ≠ [])
    (h : ∀ s ∈ parts, s ≠ [] ∧ '/' ∉ s) :
    splitSlash (joinSlash parts) = parts := by
  induction parts with
  | nil => exact absurd rfl hne
  | cons s rest ih =>
    cases rest with
    | nil =>
      simp only [joinSlash]
      exact splitSlash_no_slash s (h s (List.mem_cons_self _ _)).2
    | cons t ts =>
      have hjoin : joinSlash (s :: t :: ts) = s ++ '/' :: joinSlash (t :: ts) := rfl
      rw [hjoin, splitSlash_append_slash s _ (h s (List.mem_cons_self _ _)).2]
      rw [ih (by simp) (fun u hu => h u (List.mem_cons_of_mem _ hu))]

/-- The segments of the sanitized result are exactly the kept parts. -/
theorem splitSlash_sanitize (p : Str) (hne : sanitizeParts p ≠ []) :
    splitSlash (sanitize_archive_path p) = sanitizeParts p := by
  unfold sanitize_archive_path
  exact splitSlash_joinSlash _ hne
    (fun s hs => ⟨(sanitizeParts_props p s hs).1, (sanitizeParts_props p s hs).2.2.2.1⟩)

theorem sanitize_head?_props (p : Str) :
    (sanitize_archive_path p).head? ≠ some '/' ∧
    (sanitize_archive_path p).head? ≠ some '\\' := by
  unfold sanitize_archive_path
  cases hp : sanitizeParts p with
  | nil => simp [joinSlash]
  | cons s rest =>
    have hprops := sanitizeParts_props p s (by rw [hp]; exact List.mem_cons_self _ _)
    rw [joinSlash_head? s rest hprops.1]
    cases s with
    | nil => exact absurd rfl hprops.1
    | cons c cs =>
      constructor
      · simp only [List.head?, ne_eq, Option.some.injEq]
        intro hc
        exact hprops.2.2.2.1 (by simp [hc])
      · simp only [List.head?, ne_eq, Option.some.injEq]
        intro hc
        exact hprops.2.2.2.2 (by simp [hc])

/-! ## Extension handling and the policy engine (files/helpers.py, lines 23-78) -/

/-- Shorthand: view a Lean string literal as a modelled Python string. -/
def lit (s : String) : Str := s.toList

/-- The characters after the last `'.'` of `fn` (the whole of `fn` when it
has no dot) — this is Python `fn.rsplit(".", 1)[-1]`. -/
def afterLastDot (fn : Str) : Str :=
  (fn.reverse.takeWhile (fun c => c != '.')).reverse

/-- Python `s.lower()` (ASCII case, which covers every extension compared
by the source). -/
def lowerStr (s : Str) : Str := s.map Char.toLower

/-- The extension as computed inside `validate_upload`:
`filename.rsplit(".", 1)[-1].lower() if "." in filename else ""`. -/
def validateExt (fn : Str) : Str :=
  if '.' ∈ fn then lowerStr (afterLastDot fn) else []

/-- The extension as computed inside `guess_file_type_by_extension`:
`filename.rsplit(".", 1)[-1].lower()` — note the missing dot guard, so a
dotless filename is its own extension. -/
def guessExt (fn : Str) : Str := lowerStr (afterLastDot fn)

/-- `GroupSettings` as consumed by `validate_upload`: `max_file_size` is a
nullable integer; a null `allowed_extensions` behaves exactly like `[]`
(the source reads `group_settings.allowed_extensions or []`), so both are
modelled as the empty list. -/
structure GroupSettings where
  max_file_size : Option Nat
  allowed_extensions : List Str
deriving DecidableEq

/-- The two exception types raised by `validate_upload`
(`ExceedsSizeLimitError`, `ExtensionNotAllowedError`), carrying the data
interpolated into their messages. -/
inductive Rejection where
  | sizeExceeded (size limit : Nat)
  | extensionNotAllowed (ext : Str) (allowed : List Str)
deriving DecidableEq

/-- The `allowed_extensions` block of `validate_upload` (step 2 of the
source, reached when the size check does not raise). -/
def extCheck (filename : Str) (g : GroupSettings) : Option Rejection :=
  if g.allowed_extensions = [] then none
  else if validateExt filename ∈ g.allowed_extensions.map lowerStr then none
  else some (.extensionNotAllowed (validateExt filename) g.allowed_extensions)

/-- `validate_upload(file_data, filename, group_settings)` from
files/helpers.py: `none` models a normal return, `some r` models raising
`r`.  A missing `group_settings` (Python `None`, falsy) never rejects. -/
def validate_upload (byteLen : Nat) (filename : Str) (gs : Option GroupSettings) :
    Option Rejection :=
  match gs with
  | none => none
  | some g =>
    match g.max_file_size with
    | some m =>
      if byteLen > m then some (.sizeExceeded byteLen m)
      else extCheck filename g
    | none => extCheck filename g

/-- `FileType` from storage_enums.py. -/
inductive FileType where
  | BASE
  | IMAGE
deriving DecidableEq

/-- The image-extension list of `guess_file_type_by_extension`. -/
def imageExts : List Str :=
  [lit "jpg", lit "jpeg", lit "png", lit "gif", lit "bmp", lit "webp"]

/-- `guess_file_type_by_extension` from files/helpers.py. -/
def guess_file_type_by_extension (filename : Str) : FileType :=
  if guessExt filename ∈ imageExts then .IMAGE else .BASE

/-! Spec-side statement of the §4.3 rejection rules, used to compare
`validate_upload` against the specification's wording. -/

/-- §4.3 rule 2 fires: `max_file_size` is not null and the byte length
exceeds it. -/
def sizeRuleFires (g : GroupSettings) (byteLen : Nat) : Prop :=
  ∃ m, g.max_file_size = some m ∧ byteLen > m

/-- §4.3 rule 3 fires: `allowed_extensions` is non-empty and the filename's
extension matches no entry case-insensitively. -/
def extRuleFires (g : GroupSettings) (filename : Str) : Prop :=
  g.allowed_extensions ≠ [] ∧
    ∀ e ∈ g.allowed_extensions, lowerStr e ≠ validateExt filename

/-! ## `render_path_template` (files/helpers.py, lines 84-99) -/

/-- A Python `datetime` value as far as `strftime("%Y")` … `strftime("%S")`
observe it. -/
structure PyDateTime where
  year : Nat
  month : Nat
  day : Nat
  hour : Nat
  minute : Nat
  second : Nat
deriving DecidableEq

/-- Decimal digits of a natural number. -/
def natStr (n : Nat) : Str := Nat.toDigits 10 n

/-- Zero-pad a decimal rendering to width `w` (strftime zero padding). -/
def padTo (w : Nat) (n : Nat) : Str :=
  List.replicate (w - (natStr n).length) '0' ++ natStr n

/-- Python `s.replace(p :: ps, rep)`: replace every occurrence of the
(nonempty) pattern, scanning left to right.  The `fuel` argument starts at
the length of the string and each step consumes at least one character, so
the fuel never runs out (the `0` fallback only ever sees `[]`). -/
def replaceAllF (p : Char) (ps : Str) (rep : Str) : Nat → Str → Str
  | 0, s => s
  | _ + 1, [] => []
  | fuel + 1, c :: rest =>
    if (p :: ps).isPrefixOf (c :: rest) then
      rep ++ replaceAllF p ps rep fuel (rest.drop ps.length)
    else
      c :: replaceAllF p ps rep fuel rest

/-- Python `s.replace(p :: ps, rep)`. -/
def replaceAll (p : Char) (ps : Str) (rep : Str) (s : Str) : Str :=
  replaceAllF p ps rep s.length s

/-- Python `s.replace(pat, rep)` for the nonempty patterns used by
`render_path_template`. -/
def pyReplace (pat rep s : Str) : Str :=
  match pat with
  | [] => s
  | p :: ps => replaceAll p ps rep s

/-- Is the character stripped by `.strip("/\\")`? -/
def isSep (c : Char) : Bool := c == '/' || c == '\\'

/-- Python `s.strip("/\\")`. -/
def pyStripSeps (s : Str) : Str :=
  ((s.dropWhile isSep).reverse.dropWhile isSep).reverse

/-- `render_path_template(template, now)` from files/helpers.py: the chain
of six `str.replace` calls followed by `.strip("/\\")`.  The Python
`try/except` wrapper is dead for the total operations modelled here (the
`strftime` calls cannot fail for a constructible `datetime`), so no error
branch arises. -/
def render_path_template (template : Str) (now : PyDateTime) : Str :=
  pyStripSeps
    (pyReplace (lit "{S}") (padTo 2 now.second)
      (pyReplace (lit "{M}") (padTo 2 now.minute)
        (pyReplace (lit "{H}") (padTo 2 now.hour)
          (pyReplace (lit "{d}") (padTo 2 now.day)
            (pyReplace (lit "{m}") (padTo 2 now.month)
              (pyReplace (lit "{Y}") (padTo 4 now.year) template))))))

/-! ## State model: local uploads disk + database session

The flat `uploads/` tree is a path → bytes association list (paths relative
to the uploads root); the database is the list of `files` rows plus the list
of `file_previews` rows and the autoincrement counter; `tasks` records the
preview file-ids handed to `BackgroundTasks.add_task`. -/

/-- `os.path.basename`: the characters after the last `'/'`. -/
def basename (p : Str) : Str :=
  (p.reverse.takeWhile (fun c => c != '/')).reverse

/-- `os.path.splitext(fname)`: split off the last extension; leading dots of
the name never start an extension. -/
def osSplitext (fname : Str) : Str × Str :=
  if '.' ∈ fname then
    let extRev := fname.reverse.takeWhile (fun c => c != '.')
    let base := fname.take (fname.length - extRev.length - 1)
    if base.all (fun c => c == '.') then (fname, [])
    else (base, '.' :: extRev.reverse)
  else (fname, [])

/-- One row of the `files` table (file.py), restricted to the columns the
modelled pipeline reads or writes. -/
structure FileRec where
  id : Nat
  size : Nat
  file_type : FileType
  path : Str
  user_id : Option Nat
  original_filename : Str
  has_preview : Bool
  default_preview_path : Option Str
deriving DecidableEq

/-- One row of the `file_previews` table (file_preview.py). -/
structure FilePreviewRec where
  file_id : Nat
  preview_type : Str
  storage_path : Str
  width : Nat
  height : Nat
deriving DecidableEq

/-- Combined filesystem-plus-session state threaded through the pipeline. -/
structure St where
  disk : List (Str × List Nat)
  previewDisk : List Str
  files : List FileRec
  filePreviews : List FilePreviewRec
  nextId : Nat
  tasks : List Nat
deriving DecidableEq

/-- `os.path.exists(uploads/<p>)` / reading the stored bytes at `p`. -/
def lookupDisk (disk : List (Str × List Nat)) (p : Str) : Option (List Nat) :=
  (disk.find? (fun e => e.1 == p)).map (fun e => e.2)

/-- The exceptions `store_new_file` / `store_file_from_archive` can raise. -/
inductive StorageErr where
  | emptyFile
  | invalidArchivePath (p : Str)
  | existsOnDisk (p : Str)
  | existsInDb (p : Str)
  | diskWriteFailure
deriving DecidableEq

/-- `store_new_file` from files/helpers.py.  The nondeterministic inputs of
the source (current time for the template, the sha256-derived random name)
enter as the parameters `now` and `hashedName`; `writeOk` is the oracle for
whether the physical `open/write` succeeds, and `failDisk` is whatever the
uploads tree holds after a failed write (the source makes no guarantee
about partially written bytes).  The DB row is added and committed only
after the disk write returns. -/
def store_new_file (st : St) (contents : List Nat) (origName : Str)
    (owner : Option Nat) (settingsTemplate : Option Str) (now : PyDateTime)
    (hashedName : Str) (writeOk : Bool) (failDisk : List (Str × List Nat)) :
    St × Except StorageErr FileRec :=
  if contents = [] then (st, .error .emptyFile)
  else
    let template :=
      match settingsTemplate with
      | some t => if t = [] then lit "{Y}/{m}" else t
      | none => lit "{Y}/{m}"
    let relDir := render_path_template template now
    let relPath := if relDir = [] then hashedName else relDir ++ '/' :: hashedName
    if ¬writeOk then ({ st with disk := failDisk }, .error .diskWriteFailure)
    else
      let fr : FileRec :=
        { id := st.nextId, size := contents.length, file_type := .BASE,
          path := relPath, user_id := owner, original_filename := origName,
          has_preview := false, default_preview_path := none }
      ({ st with disk := (relPath, contents) :: st.disk,
                 files := fr :: st.files, nextId := st.nextId + 1 },
       .ok fr)

/-- `store_file_from_archive` from files/helpers.py: empty-contents check,
sanitization check, disk-duplicate check, DB-duplicate check — each raising
before any byte is written or row added — then write plus commit. -/
def store_file_from_archive (st : St) (contents : List Nat)
    (archivePath : Str) (owner : Option Nat) :
    St × Except StorageErr FileRec :=
  if contents = [] then (st, .error .emptyFile)
  else
    let safe := sanitize_archive_path archivePath
    if safe = [] then (st, .error (.invalidArchivePath archivePath))
    else if (lookupDisk st.disk safe).isSome then (st, .error (.existsOnDisk safe))
    else if st.files.any (fun f => f.path == safe) then (st, .error (.existsInDb safe))
    else
      let fr : FileRec :=
        { id := st.nextId, size := contents.length, file_type := .BASE,
          path := safe, user_id := owner,
          original_filename := basename archivePath,
          has_preview := false, default_preview_path := none }
      ({ st with disk := (safe, contents) :: st.disk,
                 files := fr :: st.files, nextId := st.nextId + 1 },
       .ok fr)

/-- Update the first list element satisfying `p` (SQLAlchemy `.first()` row
mutation). -/
def updateFirst (p : α → Bool) (f : α → α) : List α → List α
  | [] => []
  | x :: xs => if p x then f x :: xs else x :: updateFirst p f xs

/-- The typed outcomes of the single-upload endpoint: `HTTPException`
status codes as raised by `upload_file`. -/
inductive UploadErr where
  | badRequest (msg : Str)
  | payloadTooLarge (msg : Str)
  | serverError
deriving DecidableEq

/-- Exception messages, as interpolated by the source (quote characters of
the Python text are omitted; only the interpolated data matters here). -/
def rejectionMsg : Rejection → Str
  | .sizeExceeded n m =>
    lit "File size " ++ natStr n ++ lit " bytes exceeds limit " ++ natStr m ++ lit "."
  | .extensionNotAllowed ext allowed =>
    lit "File extension ." ++ ext ++ lit " is not allowed. Allowed list: " ++
      joinCommaSpace allowed
where
  joinCommaSpace : List Str → Str
    | [] => []
    | [s] => s
    | s :: rest => s ++ lit ", " ++ joinCommaSpace rest

/-- Messages of the storage-layer exceptions. -/
def storageErrMsg : StorageErr → Str
  | .emptyFile => lit "Empty file"
  | .invalidArchivePath p => lit "Invalid archive path: " ++ p
  | .existsOnDisk p => lit "File already exists on disk: " ++ p
  | .existsInDb p => lit "File already registered in DB: " ++ p
  | .diskWriteFailure => lit "disk write failed"

/-- `upload_file` from files/upload.py (steps after owner resolution):
empty check, `validate_upload` (413 for size, 400 for extension),
`store_new_file`, post-hoc `file_type` classification commit, and preview
scheduling for image types (`PREVIEW_GENERATORS` has exactly the `IMAGE`
key). -/
def upload_file (st : St) (contents : List Nat) (filename : Str)
    (gs : Option GroupSettings) (owner : Option Nat)
    (uploadPathTemplate : Option Str) (now : PyDateTime) (hashedName : Str)
    (writeOk : Bool) (failDisk : List (Str × List Nat)) :
    St × Except UploadErr Nat :=
  if contents = [] then (st, .error (.badRequest (lit "Uploaded file is empty")))
  else
    match validate_upload contents.length filename gs with
    | some (.sizeExceeded n m) =>
      (st, .error (.payloadTooLarge (rejectionMsg (.sizeExceeded n m))))
    | some (.extensionNotAllowed e a) =>
      (st, .error (.badRequest (rejectionMsg (.extensionNotAllowed e a))))
    | none =>
      match store_new_file st contents filename owner uploadPathTemplate now
          hashedName writeOk failDisk with
      | (st1, .error _) => (st1, .error .serverError)
      | (st1, .ok fr) =>
        let ftype := guess_file_type_by_extension fr.original_filename
        let st2 := { st1 with
          files := updateFirst (fun f => f.id == fr.id)
            (fun f => { f with file_type := ftype }) st1.files }
        let st3 :=
          if ftype = .IMAGE then { st2 with tasks := st2.tasks ++ [fr.id] }
          else st2
        (st3, .ok fr.id)

/-! ## Bulk import (`bulk_upload` and its `_import_file` closure,
files/upload.py lines 125-238) -/

/-- The mutable variables of the `bulk_upload` handler that `_import_file`
closes over, together with the threaded disk/DB state. -/
structure ImportAcc where
  st : St
  ok : Nat
  fail : Nat
  lines : List Str
deriving DecidableEq

/-- `_import_file(member_name, file_reader)` from files/upload.py: skip
empty names, names ending in `"/"`, and zero-length contents; record a
policy rejection as a failure line; otherwise run
`store_file_from_archive`, classify the file type, commit, schedule a
preview for images, and count a success — any storage exception is caught
at this boundary and recorded as a failure line. -/
def import_file (gs : Option GroupSettings) (owner : Option Nat)
    (acc : ImportAcc) (memberName : Str) (fileData : List Nat) : ImportAcc :=
  if memberName = [] ∨ memberName.getLast? = some '/' then acc
  else if fileData = [] then acc
  else
    match validate_upload fileData.length memberName gs with
    | some r =>
      { acc with fail := acc.fail + 1,
                 lines := acc.lines ++ [memberName ++ '\t' :: rejectionMsg r] }
    | none =>
      match store_file_from_archive acc.st fileData memberName owner with
      | (st1, .error e) =>
        { acc with st := st1, fail := acc.fail + 1,
                   lines := acc.lines ++ [memberName ++ '\t' :: storageErrMsg e] }
      | (st1, .ok fr) =>
        let ftype := guess_file_type_by_extension fr.original_filename
        let st2 := { st1 with
          files := updateFirst (fun f => f.id == fr.id)
            (fun f => { f with file_type := ftype }) st1.files }
        let st3 :=
          if ftype = .IMAGE then { st2 with tasks := st2.tasks ++ [fr.id] }
          else st2
        { acc with st := st3, ok := acc.ok + 1 }

/-- One `zipfile.ZipInfo` member as the source observes it.  CPython's
`ZipInfo.is_dir()` tests only whether the stored name ends in `"/"`; a
symlink member is exposed as an ordinary member whose content is the link
target (the symlink bit lives in `external_attr`, which the source never
reads — hence the final field is deliberately unused below). -/
structure ZipMember where
  filename : Str
  content : List Nat
  symlinkAttr : Bool
deriving DecidableEq

/-- `ZipInfo.is_dir()`. -/
def zipMemberIsDir (m : ZipMember) : Bool := m.filename.getLast? == some '/'

/-- One `tarfile.TarInfo` member as the source observes it. -/
structure TarMember where
  name : Str
  isDirFlag : Bool
  isLnkFlag : Bool
  isSymFlag : Bool
  content : List Nat
deriving DecidableEq

/-- The zip branch of `bulk_upload`'s extraction loop. -/
def processZipMembers (gs : Option GroupSettings) (owner : Option Nat)
    (acc : ImportAcc) (members : List ZipMember) : ImportAcc :=
  members.foldl
    (fun acc m =>
      if zipMemberIsDir m then acc
      else import_file gs owner acc m.filename m.content)
    acc

/-- The tar branch of `bulk_upload`'s extraction loop (`tf.extractfile`
yields a truthy reader for every regular-file member, so the
`if f_reader:` guard passes for exactly the members kept here). -/
def processTarMembers (gs : Option GroupSettings) (owner : Option Nat)
    (acc : ImportAcc) (members : List TarMember) : ImportAcc :=
  members.foldl
    (fun acc m =>
      if m.isDirFlag || m.isLnkFlag || m.isSymFlag then acc
      else import_file gs owner acc m.name m.content)
    acc

/-- Python `"\n".join(lines)`. -/
def joinNL : List Str → Str
  | [] => []
  | [s] => s
  | s :: rest => s ++ '\n' :: joinNL rest

/-- The summary assembly at the end of `bulk_upload`: insert
`"<ok>/<total> success"` at index 0, insert `"<fail> failed\n"` at index 1
when there were failures, join with newlines (falling back to
`"Nothing imported."` on an empty join, a branch that is in fact dead). -/
def buildReport (ok fail : Nat) (lines : List Str) : Str :=
  let header := natStr ok ++ lit "/" ++ natStr (ok + fail) ++ lit " success"
  let all :=
    if fail ≠ 0 then header :: (natStr fail ++ lit " failed\n") :: lines
    else header :: lines
  let joined := joinNL all
  if joined = [] then lit "Nothing imported." else joined

/-- The `BulkUploadSummary` response model. -/
structure BulkUploadSummary where
  success : Nat
  failed : Nat
  result_text : Str
deriving DecidableEq

/-- `bulk_upload` for a readable zip archive, from the point where the
member loop starts. -/
def bulk_upload_zip (st : St) (gs : Option GroupSettings) (owner : Option Nat)
    (members : List ZipMember) : St × BulkUploadSummary :=
  let acc := processZipMembers gs owner ⟨st, 0, 0, []⟩ members
  (acc.st,
   { success := acc.ok, failed := acc.fail,
     result_text := buildReport acc.ok acc.fail acc.lines })

/-- `bulk_upload` for a readable tar archive, from the point where the
member loop starts. -/
def bulk_upload_tar (st : St) (gs : Option GroupSettings) (owner : Option Nat)
    (members : List TarMember) : St × BulkUploadSummary :=
  let acc := processTarMembers gs owner ⟨st, 0, 0, []⟩ members
  (acc.st,
   { success := acc.ok, failed := acc.fail,
     result_text := buildReport acc.ok acc.fail acc.lines })

/-! ## Preview generation (utils/preview.py, utils/preview_handlers/image_preview.py) -/

/-- `generate_image_thumbnail(db, db_file, thumb_size=256)`: early returns
for a missing path or missing bytes on disk; inside the `try`, open the
image (`decodeOk` is the oracle for `Image.open/convert/thumbnail/save` on
the stored bytes — a corrupt or unsupported image makes it `false`), write
the thumbnail under `previews/`, upsert the single
`(file_id, "thumbnail_256")` row, and set `has_preview` /
`default_preview_path` on the parent row; the bare `except: pass` swallows
every failure, leaving the state untouched.  `w`/`h` are the decoded
thumbnail dimensions. -/
def generate_image_thumbnail (st : St) (fid : Nat) (decodeOk : Bool)
    (w h : Nat) : St :=
  match st.files.find? (fun f => f.id == fid) with
  | none => st
  | some f =>
    let relPath := f.path
    if relPath = [] then st
    else if (lookupDisk st.disk relPath).isNone then st
    else
      let fname := basename relPath
      let base := (osSplitext fname).1
      let ext := (osSplitext fname).2
      let ext1 := if ext = [] then lit ".jpg" else ext
      let pname := base ++ lit "_256" ++ lowerStr ext1
      if ¬decodeOk then st
      else
        let ptype := lit "thumbnail_256"
        let st1 := { st with previewDisk := pname :: st.previewDisk }
        let isKey : FilePreviewRec → Bool :=
          fun q => q.file_id == fid && q.preview_type == ptype
        let previews2 :=
          match st1.filePreviews.find? isKey with
          | none => st1.filePreviews ++ [⟨fid, ptype, pname, w, h⟩]
          | some _ =>
            updateFirst isKey
              (fun q => { q with storage_path := pname, width := w, height := h })
              st1.filePreviews
        let files2 :=
          updateFirst (fun g => g.id == fid)
            (fun g => { g with has_preview := true,
                               default_preview_path := some pname })
            st1.files
        { st1 with filePreviews := previews2, files := files2 }

/-- `generate_preview_in_background(file_id)` from utils/preview.py: fresh
session, load the row, dispatch on `PREVIEW_GENERATORS` (which maps exactly
`FileType.IMAGE`), commit.  Unknown ids and unregistered types are silent
no-ops. -/
def generate_preview_in_background (st : St) (fid : Nat) (decodeOk : Bool)
    (w h : Nat) : St :=
  match st.files.find? (fun f => f.id == fid) with
  | none => st
  | some f =>
    if f.file_type = .IMAGE then generate_image_thumbnail st fid decodeOk w h
    else st

/-! ## Deletion-side directory pruning (files/management.py lines 23-42,
admin/helpers.py lines 43-75)

For this part the hierarchy matters, so the uploads tree is modelled
structurally: a file is a nonempty list of path segments, a directory
likewise; `[]` is the uploads root itself. -/

/-- Segment path relative to the uploads root. -/
abbrev SegPath := List Str

/-- The uploads tree as the pruning walk observes it: the set of regular
files and the set of (created) directories, both as root-relative segment
paths.  The root `[]` is not an element of `dirs`. -/
structure UploadsFS where
  files : List SegPath
  dirs : List SegPath
deriving DecidableEq

/-- `os.listdir(d)` is nonempty: some file or some strictly deeper
directory lives directly inside `d`. -/
def dirNonEmpty (fs : UploadsFS) (d : SegPath) : Bool :=
  fs.files.any (fun f => f.dropLast == d) ||
    fs.dirs.any (fun e => e.dropLast == d && e != d)

/-- The chain of ancestors visited by the `while` loop of
`_cleanup_empty_dirs`, starting at a directory and walking to (but not
including) the root.  The fuel argument (at least the path length) makes
the recursion structural; the walk drops one trailing segment per step, so
fuel `p.length` always suffices. -/
def ancestorChainF : Nat → SegPath → List SegPath
  | 0, _ => []
  | _ + 1, [] => []
  | fuel + 1, d :: ds => (d :: ds) :: ancestorChainF fuel (d :: ds).dropLast

/-- The ancestors of `p`, deepest first, down to (excluding) the root. -/
def ancestorChain (p : SegPath) : List SegPath :=
  ancestorChainF p.length p

/-- The loop body of `_cleanup_empty_dirs`: `os.listdir` on a missing
directory raises `OSError` (swallowed, loop ends); an empty directory is
removed and the walk continues upward; a non-empty directory ends the
walk. -/
def cleanupWalk (fs : UploadsFS) : List SegPath → UploadsFS
  | [] => fs
  | d :: rest =>
    if d ∉ fs.dirs then fs
    else if dirNonEmpty fs d then fs
    else cleanupWalk { fs with dirs := fs.dirs.erase d } rest

/-- `_cleanup_empty_dirs(start)` from files/management.py, with `start` the
just-deleted file's path. -/
def cleanup_empty_dirs (fs : UploadsFS) (start : SegPath) : UploadsFS :=
  cleanupWalk fs (ancestorChain start.dropLast)

/-- The uploads-side handling of one row in `delete_physical_files`
(admin/helpers.py): a missing file is skipped without error; otherwise
`os.remove` then `_cleanup_empty_dirs`. -/
def delete_physical_file (fs : UploadsFS) (p : SegPath) : UploadsFS :=
  if p ∈ fs.files then
    cleanup_empty_dirs { fs with files := fs.files.erase p } p
  else fs

/-! ## Helper lemmas about `dropWhile` ends -/

theorem head?_dropWhile_false (p : α → Bool) (l : List α) :
    ∀ c, (l.dropWhile p).head? = some c → p c = false := by
  induction l with
  | nil => intro c h; simp [List.dropWhile] at h
  | cons a rest ih =>
    intro c h
    rw [List.dropWhile_cons] at h
    by_cases ha : p a
    · rw [if_pos ha] at h
      exact ih c h
    · rw [if_neg ha] at h
      simp only [List.head?_cons, Option.some.injEq] at h
      subst h
      simpa using ha

theorem getLast?_dropWhile_ne (p : α → Bool) (l : List α)
    (h : l.dropWhile p ≠ []) : (l.dropWhile p).getLast? = l.getLast? := by
  induction l with
  | nil => simp [List.dropWhile] at h
  | cons a rest ih =>
    rw [List.dropWhile_cons] at h ⊢
    by_cases ha : p a
    · rw [if_pos ha] at h ⊢
      have hr : rest ≠ [] := by
        intro he
        rw [he] at h
        simp [List.dropWhile] at h
      rw [ih h]
      cases rest with
      | nil => exact absurd rfl hr
      | cons b t => simp [List.getLast?_cons_cons]
    · rw [if_neg ha]

theorem isSep_false_ne (c : Char) (h : isSep c = false) :
    c ≠ '/' ∧ c ≠ '\\' := by
  simp only [isSep, Bool.or_eq_false_iff, beq_eq_false_iff_ne, ne_eq] at h
  exact h

theorem pyStripSeps_ends (s : Str) :
    ((pyStripSeps s).head? ≠ some '/' ∧ (pyStripSeps s).head? ≠ some '\\') ∧
    ((pyStripSeps s).getLast? ≠ some '/' ∧ (pyStripSeps s).getLast? ≠ some '\\') := by
  have hps : pyStripSeps s = ((s.dropWhile isSep).reverse.dropWhile isSep).reverse := rfl
  by_cases hu : (s.dropWhile isSep).reverse.dropWhile isSep = []
  · rw [hps, hu]
    simp
  · constructor
    · have hh : (pyStripSeps s).head? = (s.dropWhile isSep).head? := by
        rw [hps, List.head?_reverse, getLast?_dropWhile_ne _ _ hu]
        simp
      rw [hh]
      cases hc : (s.dropWhile isSep).head? with
      | none => simp
      | some c =>
        have := isSep_false_ne c (head?_dropWhile_false isSep s c hc)
        simp [this.1, this.2]
    · have hl : (pyStripSeps s).getLast? =
          ((s.dropWhile isSep).reverse.dropWhile isSep).head? := by
        rw [hps, List.getLast?_eq_head?_reverse, List.reverse_reverse]
      rw [hl]
      cases hc : ((s.dropWhile isSep).reverse.dropWhile isSep).head? with
      | none => simp
      | some c =>
        have := isSep_false_ne c (head?_dropWhile_false isSep _ c hc)
        simp [this.1, this.2]

theorem replaceAllF_not_mem (p : Char) (ps rep : Str) :
    ∀ (fuel : Nat) (s : Str), p ∉ s → replaceAllF p ps rep fuel s = s := by
  intro fuel
  induction fuel with
  | zero => intro s _; rfl
  | succ n ih =>
    intro s h
    cases s with
    | nil => rfl
    | cons c rest =>
      have hpc : ¬ ((p :: ps).isPrefixOf (c :: rest) = true) := by
        simp only [List.isPrefixOf, Bool.and_eq_true, beq_iff_eq]
        intro hpre
        exact h (hpre.1 ▸ List.mem_cons_self _ _)
      rw [replaceAllF, if_neg hpc,
        ih rest (fun hm => h (List.mem_cons_of_mem _ hm))]

/-- `str.replace` with a pattern whose first character never occurs in the
string is the identity. -/
theorem pyReplace_not_mem (p : Char) (ps rep s : Str) (h : p ∉ s) :
    pyReplace (p :: ps) rep s = s :=
  replaceAllF_not_mem p ps rep s.length s h

/-- A template with no `'{'` renders to itself, stripped of leading and
trailing separators: every non-token character passes through literally. -/
theorem render_path_template_literal (t : Str) (now : PyDateTime)
    (h : '{' ∉ t) : render_path_template t now = pyStripSeps t := by
  unfold render_path_template
  rw [show lit "{Y}" = '{' :: ['Y', '\x7d'] from rfl,
    pyReplace_not_mem '{' ['Y', '\x7d'] (padTo 4 now.year) t h]
  rw [show lit "{m}" = '{' :: ['m', '\x7d'] from rfl,
    pyReplace_not_mem '{' ['m', '\x7d'] (padTo 2 now.month) t h]
  rw [show lit "{d}" = '{' :: ['d', '\x7d'] from rfl,
    pyReplace_not_mem '{' ['d', '\x7d'] (padTo 2 now.day) t h]
  rw [show lit "{H}" = '{' :: ['H', '\x7d'] from rfl,
    pyReplace_not_mem '{' ['H', '\x7d'] (padTo 2 now.hour) t h]
  rw [show lit "{M}" = '{' :: ['M', '\x7d'] from rfl,
    pyReplace_not_mem '{' ['M', '\x7d'] (padTo 2 now.minute) t h]
  rw [show lit "{S}" = '{' :: ['S', '\x7d'] from rfl,
    pyReplace_not_mem '{' ['S', '\x7d'] (padTo 2 now.second) t h]

/-! ## Claim theorems -/

/-- C1: for every input string, `_sanitize_archive_path` returns a path
with no `".."`, `"."` or empty segment and no leading `'/'` or `'\\'`
(so the joined destination stays under the uploads root); in particular
`sanitize("../../etc/passwd") = "etc/passwd"`; and when the sanitized
result is empty, `store_file_from_archive` raises `ValueError` instead of
treating it as a destination, mutating nothing. -/
theorem C1_sanitize_archive_path_safe :
    (∀ p : Str,
      (sanitize_archive_path p = [] ∨
        ∀ s ∈ splitSlash (sanitize_archive_path p),
          s ≠ [] ∧ s ≠ ['.'] ∧ s ≠ ['.', '.']) ∧
      (sanitize_archive_path p).head? ≠ some '/' ∧
      (sanitize_archive_path p).head? ≠ some '\\') ∧
    sanitize_archive_path (lit "../../etc/passwd") = lit "etc/passwd" ∧
    (∀ (st : St) (contents : List Nat) (p : Str) (owner : Option Nat),
      contents ≠ [] → sanitize_archive_path p = [] →
      store_file_from_archive st contents p owner =
        (st, .error (.invalidArchivePath p))) := by
  refine ⟨?_, by decide, ?_⟩
  · intro p
    refine ⟨?_, (sanitize_head?_props p).1, (sanitize_head?_props p).2⟩
    by_cases hp : sanitizeParts p = []
    · left
      simp [sanitize_archive_path, hp, joinSlash]
    · right
      rw [splitSlash_sanitize p hp]
      intro s hs
      have hprops := sanitizeParts_props p s hs
      exact ⟨hprops.1, hprops.2.1, hprops.2.2.1⟩
  · intro st contents p owner hc hs
    simp [store_file_from_archive, hc, hs]

/-- Witness for C1 at a concrete rejected entry: the all-dots path `".."`
sanitizes to the empty string and `store_file_from_archive` rejects it,
leaving the state unchanged. -/
theorem C1_sanitize_archive_path_safe_witness :
    store_file_from_archive ⟨[], [], [], [], 1, []⟩ [7] (lit "..") none =
      (⟨[], [], [], [], 1, []⟩, .error (.invalidArchivePath (lit ".."))) :=
  C1_sanitize_archive_path_safe.2.2 _ _ _ _ (by decide) (by decide)

/-- C7: `render_path_template` is a pure function of `(template, now)` (it
is a plain function of exactly those two arguments in this model, reading
no other state), never returns a leading or trailing path separator,
passes every character outside the six tokens through literally (a
brace-free template renders to itself, stripped), and substitutes the six
zero-padded tokens as in the examples: `"{Y}/{m}"` at 2025-04-07 03:05:09
UTC renders to `"2025/04"`, and a template exercising all six tokens
together with literal characters and surrounding separators renders as
expected. -/
theorem C7_render_path_template :
    (∀ (t : Str) (now : PyDateTime),
      (render_path_template t now).head? ≠ some '/' ∧
      (render_path_template t now).head? ≠ some '\\' ∧
      (render_path_template t now).getLast? ≠ some '/' ∧
      (render_path_template t now).getLast? ≠ some '\\') ∧
    (∀ (t : Str) (now : PyDateTime), '{' ∉ t →
      render_path_template t now = pyStripSeps t) ∧
    render_path_template (lit "{Y}/{m}") ⟨2025, 4, 7, 3, 5, 9⟩ = lit "2025/04" ∧
    render_path_template (lit "/{Y}-{m}-{d} {H}:{M}:{S}\\") ⟨2025, 4, 7, 3, 5, 9⟩ =
      lit "2025-04-07 03:05:09" := by
  refine ⟨?_, render_path_template_literal, by decide, by decide⟩
  intro t now
  have h := pyStripSeps_ends
    (pyReplace (lit "{S}") (padTo 2 now.second)
      (pyReplace (lit "{M}") (padTo 2 now.minute)
        (pyReplace (lit "{H}") (padTo 2 now.hour)
          (pyReplace (lit "{d}") (padTo 2 now.day)
            (pyReplace (lit "{m}") (padTo 2 now.month)
              (pyReplace (lit "{Y}") (padTo 4 now.year) t))))))
  exact ⟨h.1.1, h.1.2, h.2.1, h.2.2⟩

/-- Witness for C7 at a concrete brace-free template: `"static/dir/"`
renders to itself with the trailing separator stripped. -/
theorem C7_render_path_template_witness :
    render_path_template (lit "static/dir/") ⟨2025, 4, 7, 3, 5, 9⟩ =
      pyStripSeps (lit "static/dir/") :=
  C7_render_path_template.2.1 (lit "static/dir/") ⟨2025, 4, 7, 3, 5, 9⟩
    (by decide)

/-! ## Characterisation of `validate_upload` (claim C3) -/

theorem extRule_iff (g : GroupSettings) (fn : Str) :
    extRuleFires g fn ↔
      (g.allowed_extensions ≠ [] ∧
        validateExt fn ∉ g.allowed_extensions.map lowerStr) := by
  unfold extRuleFires
  refine and_congr_right (fun _ => ?_)
  constructor
  · intro h hmem
    obtain ⟨e, he, heq⟩ := List.mem_map.mp hmem
    exact h e he heq
  · intro h e he heq
    exact h (List.mem_map.mpr ⟨e, he, heq⟩)

theorem extCheck_fires (g : GroupSettings) (fn : Str) (h : extRuleFires g fn) :
    extCheck fn g =
      some (.extensionNotAllowed (validateExt fn) g.allowed_extensions) := by
  obtain ⟨hne, hnm⟩ := (extRule_iff g fn).mp h
  simp [extCheck, hne, hnm]

theorem extCheck_quiet (g : GroupSettings) (fn : Str) (h : ¬ extRuleFires g fn) :
    extCheck fn g = none := by
  rw [extRule_iff] at h
  unfold extCheck
  by_cases hne : g.allowed_extensions = []
  · simp [hne]
  · have hmem : validateExt fn ∈ g.allowed_extensions.map lowerStr := by
      by_contra hc
      exact h ⟨hne, hc⟩
    simp [hne, hmem]

theorem validate_upload_size_fires (n : Nat) (fn : Str) (g : GroupSettings)
    (m : Nat) (hm : g.max_file_size = some m) (hn : n > m) :
    validate_upload n fn (some g) = some (.sizeExceeded n m) := by
  simp [validate_upload, hm, hn]

theorem validate_upload_ext_fires (n : Nat) (fn : Str) (g : GroupSettings)
    (hns : ¬ sizeRuleFires g n) (he : extRuleFires g fn) :
    validate_upload n fn (some g) =
      some (.extensionNotAllowed (validateExt fn) g.allowed_extensions) := by
  cases hm : g.max_file_size with
  | none =>
    simp only [validate_upload, hm]
    exact extCheck_fires g fn he
  | some m =>
    have hn : ¬ n > m := fun hgt => hns ⟨m, hm, hgt⟩
    simp only [validate_upload, hm]
    rw [if_neg hn]
    exact extCheck_fires g fn he

theorem validate_upload_quiet (n : Nat) (fn : Str) (g : GroupSettings)
    (hns : ¬ sizeRuleFires g n) (hne : ¬ extRuleFires g fn) :
    validate_upload n fn (some g) = none := by
  cases hm : g.max_file_size with
  | none =>
    simp only [validate_upload, hm]
    exact extCheck_quiet g fn hne
  | some m =>
    have hn : ¬ n > m := fun hgt => hns ⟨m, hm, hgt⟩
    simp only [validate_upload, hm]
    rw [if_neg hn]
    exact extCheck_quiet g fn hne

/-- C3: `validate_upload` rejects exactly when a §4.3 rule fires, the size
rule is checked first, a missing policy (or null limits) never rejects, and
the worked example rejects for the extension, not the size. -/
theorem C3_validate_upload_characterised :
    (∀ (n : Nat) (fn : Str) (gso : Option GroupSettings),
      ((validate_upload n fn gso).isSome ↔
        ∃ g, gso = some g ∧ (sizeRuleFires g n ∨ extRuleFires g fn)) ∧
      (∀ g m, gso = some g → g.max_file_size = some m → n > m →
        validate_upload n fn gso = some (.sizeExceeded n m)) ∧
      (∀ g, gso = some g → ¬ sizeRuleFires g n → extRuleFires g fn →
        validate_upload n fn gso =
          some (.extensionNotAllowed (validateExt fn) g.allowed_extensions))) ∧
    validate_upload 500 (lit "a.jpg") (some ⟨some 1000, [lit "png"]⟩) =
      some (.extensionNotAllowed (lit "jpg") [lit "png"]) := by
  refine ⟨?_, by decide⟩
  intro n fn gso
  cases gso with
  | none =>
    refine ⟨by simp [validate_upload], ?_, ?_⟩
    · intro g m hg
      exact absurd hg (by simp)
    · intro g hg
      exact absurd hg (by simp)
  | some g =>
    refine ⟨?_, ?_, ?_⟩
    · constructor
      · intro hsome
        refine ⟨g, rfl, ?_⟩
        by_contra hno
        push_neg at hno
        rw [validate_upload_quiet n fn g hno.1 hno.2] at hsome
        simp at hsome
      · rintro ⟨g', hg', hfire⟩
        have hgg : g' = g := by injection hg' with h; exact h.symm
        subst hgg
        rcases hfire with hs | he
        · obtain ⟨m, hm, hn⟩ := hs
          rw [validate_upload_size_fires n fn g' m hm hn]
          simp
        · by_cases hs : sizeRuleFires g' n
          · obtain ⟨m, hm, hn⟩ := hs
            rw [validate_upload_size_fires n fn g' m hm hn]
            simp
          · rw [validate_upload_ext_fires n fn g' hs he]
            simp
    · intro g' m hg' hm hn
      have hgg : g' = g := by injection hg' with h; exact h.symm
      subst hgg
      exact validate_upload_size_fires n fn g' m hm hn
    · intro g' hg' hns he
      have hgg : g' = g := by injection hg' with h; exact h.symm
      subst hgg
      exact validate_upload_ext_fires n fn g' hns he

/-- Witness for C3 at the worked example: the policy
`{max_file_size: 1000, allowed_extensions: ["png"]}` with file `"a.jpg"`
of size 500 rejects, and specifically via the extension rule. -/
theorem C3_validate_upload_characterised_witness :
    (validate_upload 500 (lit "a.jpg")
        (some ⟨some 1000, [lit "png"]⟩)).isSome = true :=
  ((C3_validate_upload_characterised.1 500 (lit "a.jpg")
      (some ⟨some 1000, [lit "png"]⟩)).1).mpr
    ⟨⟨some 1000, [lit "png"]⟩, rfl, Or.inr (by
      refine ⟨by simp, ?_⟩
      intro e he
      simp at he
      subst he
      decide)⟩

/-! ## The archive-duplicate guard and the import-twice property (claim C2) -/

/-- The destination `q` is already taken: a file with that relative path is
on disk or a `files` row references it (the two duplicate checks of
`store_file_from_archive`). -/
def pathTaken (st : St) (q : Str) : Prop :=
  (lookupDisk st.disk q).isSome = true ∨
    st.files.any (fun f => f.path == q) = true

instance (st : St) (q : Str) : Decidable (pathTaken st q) := by
  unfold pathTaken
  infer_instance

/-- An entry that `_import_file` actually processes: nonempty name, name
not ending in `"/"`, nonempty content. -/
def entryProcessedB (name : Str) (data : List Nat) : Bool :=
  !(name == [] || name.getLast? == some '/') && !(data == [])

/-- Success shape of `store_file_from_archive`. -/
theorem store_archive_success (st : St) (c : List Nat) (p : Str)
    (o : Option Nat) (hc : c ≠ []) (hs : sanitize_archive_path p ≠ [])
    (hpt : ¬ pathTaken st (sanitize_archive_path p)) :
    store_file_from_archive st c p o =
      ({ st with
          disk := (sanitize_archive_path p, c) :: st.disk,
          files :=
            { id := st.nextId, size := c.length, file_type := .BASE,
              path := sanitize_archive_path p, user_id := o,
              original_filename := basename p,
              has_preview := false, default_preview_path := none } :: st.files,
          nextId := st.nextId + 1 },
       .ok
         { id := st.nextId, size := c.length, file_type := .BASE,
           path := sanitize_archive_path p, user_id := o,
           original_filename := basename p,
           has_preview := false, default_preview_path := none }) := by
  have h1 : ¬ (lookupDisk st.disk (sanitize_archive_path p)).isSome = true :=
    fun h => hpt (Or.inl h)
  have h2 : ¬ st.files.any (fun f => f.path == sanitize_archive_path p) = true :=
    fun h => hpt (Or.inr h)
  simp [store_file_from_archive, hc, hs, h1, h2]

/-- Conflict shape of `store_file_from_archive`: a taken destination raises
`FileExistsError` and (like every error branch) mutates nothing. -/
theorem store_archive_conflict (st : St) (c : List Nat) (p : Str)
    (o : Option Nat) (hc : c ≠ []) (hs : sanitize_archive_path p ≠ [])
    (hpt : pathTaken st (sanitize_archive_path p)) :
    (store_file_from_archive st c p o).1 = st ∧
    ((store_file_from_archive st c p o).2 =
        .error (.existsOnDisk (sanitize_archive_path p)) ∨
      (store_file_from_archive st c p o).2 =
        .error (.existsInDb (sanitize_archive_path p))) := by
  by_cases hd : (lookupDisk st.disk (sanitize_archive_path p)).isSome = true
  · constructor
    · simp [store_file_from_archive, hc, hs, hd]
    · left
      simp [store_file_from_archive, hc, hs, hd]
  · have hb : st.files.any (fun f => f.path == sanitize_archive_path p) = true := by
      rcases hpt with h | h
      · exact absurd h hd
      · exact h
    constructor
    · simp [store_file_from_archive, hc, hs, hd, hb]
    · right
      simp [store_file_from_archive, hc, hs, hd, hb]

/-- Empty-sanitization shape of `store_file_from_archive`. -/
theorem store_archive_invalid (st : St) (c : List Nat) (p : Str)
    (o : Option Nat) (hc : c ≠ []) (hs : sanitize_archive_path p = []) :
    store_file_from_archive st c p o =
      (st, .error (.invalidArchivePath p)) := by
  simp [store_file_from_archive, hc, hs]

/-- Conflict shape of `store_file_from_archive`, as a pair equation. -/
theorem store_archive_conflict_eq (st : St) (c : List Nat) (p : Str)
    (o : Option Nat) (hc : c ≠ []) (hs : sanitize_archive_path p ≠ [])
    (hpt : pathTaken st (sanitize_archive_path p)) :
    store_file_from_archive st c p o =
        (st, .error (.existsOnDisk (sanitize_archive_path p))) ∨
      store_file_from_archive st c p o =
        (st, .error (.existsInDb (sanitize_archive_path p))) := by
  by_cases hd : (lookupDisk st.disk (sanitize_archive_path p)).isSome = true
  · left
    simp [store_file_from_archive, hc, hs, hd]
  · have hb : st.files.any (fun f => f.path == sanitize_archive_path p) = true := by
      rcases hpt with h | h
      · exact absurd h hd
      · exact h
    right
    simp [store_file_from_archive, hc, hs, hd, hb]

/-- Every error branch of `store_file_from_archive` leaves the state
untouched. -/
theorem store_archive_error_frame (st : St) (c : List Nat) (p : Str)
    (o : Option Nat) (e : StorageErr)
    (h : (store_file_from_archive st c p o).2 = .error e) :
    (store_file_from_archive st c p o).1 = st := by
  unfold store_file_from_archive at h ⊢
  by_cases h1 : c = [] <;>
    by_cases h2 : sanitize_archive_path p = [] <;>
    by_cases h3 : (lookupDisk st.disk (sanitize_archive_path p)).isSome = true <;>
    by_cases h4 : st.files.any (fun f => f.path == sanitize_archive_path p) = true <;>
    simp_all

/-- A cons on the disk never hides an existing path. -/
theorem lookupDisk_cons_isSome (disk : List (Str × List Nat))
    (e : Str × List Nat) (q : Str)
    (h : (lookupDisk disk q).isSome = true) :
    (lookupDisk (e :: disk) q).isSome = true := by
  unfold lookupDisk at h ⊢
  rw [List.find?_cons]
  by_cases he : e.1 == q
  · simp [he]
  · simp only [he]
    exact h

/-- The post-store `file_type` update leaves the `any`-over-paths test
unchanged. -/
theorem any_path_updateFirst (pr : FileRec → Bool) (ft : FileType)
    (l : List FileRec) (q : Str) :
    (updateFirst pr (fun f => { f with file_type := ft }) l).any
        (fun g => g.path == q) =
      l.any (fun g => g.path == q) := by
  induction l with
  | nil => rfl
  | cons x xs ih =>
    unfold updateFirst
    by_cases hx : pr x
    · simp [hx, List.any_cons]
    · simp [hx, List.any_cons, ih]

/-- An entry that can no longer succeed against state `st`: its policy
check rejects, its path sanitizes to nothing, or its destination is
taken. -/
def deadEntry (gs : Option GroupSettings) (st : St) (name : Str)
    (data : List Nat) : Prop :=
  (validate_upload data.length name gs).isSome = true ∨
    sanitize_archive_path name = [] ∨
    pathTaken st (sanitize_archive_path name)

/-- The member loop of `bulk_upload`, abstracted over the container: fold
`_import_file` over the (name, content) pairs handed to it. -/
def runEntries (gs : Option GroupSettings) (owner : Option Nat)
    (acc : ImportAcc) (es : List (Str × List Nat)) : ImportAcc :=
  es.foldl (fun a e => import_file gs owner a e.1 e.2) acc

theorem import_file_skip (gs : Option GroupSettings) (owner : Option Nat)
    (acc : ImportAcc) (name : Str) (data : List Nat)
    (h : entryProcessedB name data = false) :
    import_file gs owner acc name data = acc := by
  simp only [entryProcessedB, Bool.and_eq_false_iff, Bool.not_eq_false',
    Bool.or_eq_true, beq_iff_eq] at h
  unfold import_file
  rcases h with h | h
  · rw [if_pos h]
  · by_cases h1 : name = [] ∨ name.getLast? = some '/'
    · rw [if_pos h1]
    · rw [if_neg h1, if_pos h]

theorem import_file_pathTaken_mono (gs : Option GroupSettings)
    (owner : Option Nat) (acc : ImportAcc) (name : Str) (data : List Nat)
    (q : Str) (h : pathTaken acc.st q) :
    pathTaken (import_file gs owner acc name data).st q := by
  unfold import_file
  by_cases h1 : name = [] ∨ name.getLast? = some '/'
  · rw [if_pos h1]
    exact h
  · rw [if_neg h1]
    by_cases h2 : data = []
    · rw [if_pos h2]
      exact h
    · rw [if_neg h2]
      cases hv : validate_upload data.length name gs with
      | some r => exact h
      | none =>
        dsimp only
        by_cases hs : sanitize_archive_path name = []
        · rw [store_archive_invalid acc.st data name owner h2 hs]
          exact h
        · by_cases hpt : pathTaken acc.st (sanitize_archive_path name)
          · rcases store_archive_conflict_eq acc.st data name owner h2 hs hpt with
              he | he <;> rw [he] <;> exact h
          · rw [store_archive_success acc.st data name owner h2 hs hpt]
            dsimp only
            rcases h with hd | hf
            · refine Or.inl ?_
              split <;> exact lookupDisk_cons_isSome _ _ _ hd
            · right
              split <;>
              · rw [any_path_updateFirst]
                simp only [List.any_cons]
                rw [hf]
                simp

theorem import_file_makes_dead (gs : Option GroupSettings)
    (owner : Option Nat) (acc : ImportAcc) (name : Str) (data : List Nat) :
    entryProcessedB name data = true →
    deadEntry gs (import_file gs owner acc name data).st name data := by
  intro hp
  cases hv : validate_upload data.length name gs with
  | some r => exact Or.inl (by rw [hv]; rfl)
  | none =>
    by_cases hs : sanitize_archive_path name = []
    · exact Or.inr (Or.inl hs)
    · refine Or.inr (Or.inr ?_)
      simp only [entryProcessedB, Bool.and_eq_true, Bool.not_eq_true',
        Bool.or_eq_false_iff, beq_eq_false_iff_ne, ne_eq] at hp
      have h1 : ¬(name = [] ∨ name.getLast? = some '/') := by
        intro hor
        rcases hor with h | h
        · exact hp.1.1 h
        · exact hp.1.2 h
      have h2 : data ≠ [] := hp.2
      unfold import_file
      rw [if_neg h1, if_neg h2, hv]
      dsimp only
      by_cases hpt : pathTaken acc.st (sanitize_archive_path name)
      · rcases store_archive_conflict_eq acc.st data name owner h2 hs hpt with
          he | he <;> rw [he] <;> exact hpt
      · rw [store_archive_success acc.st data name owner h2 hs hpt]
        dsimp only
        left
        split <;>
        · unfold lookupDisk
          rw [List.find?_cons]
          simp

theorem import_file_dead_step (gs : Option GroupSettings)
    (owner : Option Nat) (acc : ImportAcc) (name : Str) (data : List Nat)
    (hp : entryProcessedB name data = true)
    (hd : deadEntry gs acc.st name data) :
    (import_file gs owner acc name data).st = acc.st ∧
    (import_file gs owner acc name data).ok = acc.ok ∧
    (import_file gs owner acc name data).fail = acc.fail + 1 := by
  simp only [entryProcessedB, Bool.and_eq_true, Bool.not_eq_true',
    Bool.or_eq_false_iff, beq_eq_false_iff_ne, ne_eq] at hp
  have h1 : ¬(name = [] ∨ name.getLast? = some '/') := by
    intro hor
    rcases hor with h | h
    · exact hp.1.1 h
    · exact hp.1.2 h
  have h2 : data ≠ [] := hp.2
  unfold import_file
  rw [if_neg h1, if_neg h2]
  cases hv : validate_upload data.length name gs with
  | some r => exact ⟨rfl, rfl, rfl⟩
  | none =>
    rcases hd with hdv | hds | hdp
    · rw [hv] at hdv
      simp at hdv
    · rw [store_archive_invalid acc.st data name owner h2 hds]
      exact ⟨rfl, rfl, rfl⟩
    · by_cases hs : sanitize_archive_path name = []
      · rw [store_archive_invalid acc.st data name owner h2 hs]
        exact ⟨rfl, rfl, rfl⟩
      · rcases store_archive_conflict_eq acc.st data name owner h2 hs hdp with
          he | he <;> rw [he] <;> exact ⟨rfl, rfl, rfl⟩

theorem runEntries_pathTaken_mono (gs : Option GroupSettings)
    (owner : Option Nat) (es : List (Str × List Nat)) :
    ∀ (acc : ImportAcc) (q : Str), pathTaken acc.st q →
      pathTaken (runEntries gs owner acc es).st q := by
  induction es with
  | nil => intro acc q h; exact h
  | cons e rest ih =>
    intro acc q h
    exact ih _ q (import_file_pathTaken_mono gs owner acc e.1 e.2 q h)

theorem runEntries_dead_preserved (gs : Option GroupSettings)
    (owner : Option Nat) (es : List (Str × List Nat)) (acc : ImportAcc)
    (name : Str) (data : List Nat) (h : deadEntry gs acc.st name data) :
    deadEntry gs (runEntries gs owner acc es).st name data := by
  rcases h with h | h | h
  · exact Or.inl h
  · exact Or.inr (Or.inl h)
  · exact Or.inr (Or.inr (runEntries_pathTaken_mono gs owner es acc _ h))

theorem runEntries_makes_dead (gs : Option GroupSettings)
    (owner : Option Nat) :
    ∀ (es : List (Str × List Nat)) (acc : ImportAcc), ∀ e ∈ es,
      entryProcessedB e.1 e.2 = true →
      deadEntry gs (runEntries gs owner acc es).st e.1 e.2 := by
  intro es
  induction es with
  | nil =>
    intro acc e he
    simp at he
  | cons x rest ih =>
    intro acc e he hp
    rcases List.mem_cons.mp he with heq | hmem
    · subst heq
      exact runEntries_dead_preserved gs owner rest _ e.1 e.2
        (import_file_makes_dead gs owner acc e.1 e.2 hp)
    · exact ih (import_file gs owner acc x.1 x.2) e hmem hp

theorem runEntries_cons (gs : Option GroupSettings) (owner : Option Nat)
    (acc : ImportAcc) (x : Str × List Nat) (rest : List (Str × List Nat)) :
    runEntries gs owner acc (x :: rest) =
      runEntries gs owner (import_file gs owner acc x.1 x.2) rest := rfl

theorem runEntries_all_dead (gs : Option GroupSettings) (owner : Option Nat) :
    ∀ (es : List (Str × List Nat)) (acc : ImportAcc),
      (∀ e ∈ es, entryProcessedB e.1 e.2 = true →
        deadEntry gs acc.st e.1 e.2) →
      (runEntries gs owner acc es).st = acc.st ∧
      (runEntries gs owner acc es).ok = acc.ok ∧
      (runEntries gs owner acc es).fail =
        acc.fail + es.countP (fun e => entryProcessedB e.1 e.2) := by
  intro es
  induction es with
  | nil =>
    intro acc _
    exact ⟨rfl, rfl, by simp [runEntries]⟩
  | cons x rest ih =>
    intro acc h
    rw [runEntries_cons gs owner acc x rest]
    by_cases hp : entryProcessedB x.1 x.2 = true
    · obtain ⟨h1, h2, h3⟩ :=
        import_file_dead_step gs owner acc x.1 x.2 hp
          (h x (List.mem_cons_self _ _) hp)
      have hrest : ∀ e ∈ rest, entryProcessedB e.1 e.2 = true →
          deadEntry gs (import_file gs owner acc x.1 x.2).st e.1 e.2 := by
        intro e he hpe
        rw [h1]
        exact h e (List.mem_cons_of_mem _ he) hpe
      obtain ⟨g1, g2, g3⟩ := ih (import_file gs owner acc x.1 x.2) hrest
      refine ⟨g1.trans h1, g2.trans h2, ?_⟩
      rw [g3, h3, List.countP_cons]
      simp only [hp, if_true]
      omega
    · have hx : entryProcessedB x.1 x.2 = false := Bool.eq_false_iff.mpr hp
      have hskip : import_file gs owner acc x.1 x.2 = acc :=
        import_file_skip gs owner acc x.1 x.2 hx
      rw [hskip]
      obtain ⟨g1, g2, g3⟩ :=
        ih acc (fun e he hpe => h e (List.mem_cons_of_mem _ he) hpe)
      refine ⟨g1, g2, ?_⟩
      rw [g3, List.countP_cons]
      simp [hx]

/-- The zip loop is the entry fold over the non-directory members. -/
theorem processZip_eq_runEntries (gs : Option GroupSettings)
    (owner : Option Nat) :
    ∀ (ms : List ZipMember) (acc : ImportAcc),
      processZipMembers gs owner acc ms =
        runEntries gs owner acc
          ((ms.filter (fun m => !zipMemberIsDir m)).map
            (fun m => (m.filename, m.content))) := by
  intro ms
  induction ms with
  | nil => intro acc; rfl
  | cons m rest ih =>
    intro acc
    by_cases hd : zipMemberIsDir m = true
    · have hne : (!zipMemberIsDir m) = false := by simp [hd]
      simp only [processZipMembers, List.foldl_cons, hd, if_true,
        List.filter_cons, hne, Bool.false_eq_true, if_false]
      exact ih acc
    · have hdd : zipMemberIsDir m = false := Bool.eq_false_iff.mpr hd
      have hne : (!zipMemberIsDir m) = true := by simp [hdd]
      simp only [processZipMembers, List.foldl_cons, hdd, Bool.false_eq_true,
        if_false, List.filter_cons, hne, if_true, List.map_cons]
      exact ih (import_file gs owner acc m.filename m.content)

/-- The tar loop is the entry fold over the regular-file members. -/
theorem processTar_eq_runEntries (gs : Option GroupSettings)
    (owner : Option Nat) :
    ∀ (ms : List TarMember) (acc : ImportAcc),
      processTarMembers gs owner acc ms =
        runEntries gs owner acc
          ((ms.filter (fun m => !(m.isDirFlag || m.isLnkFlag || m.isSymFlag))).map
            (fun m => (m.name, m.content))) := by
  intro ms
  induction ms with
  | nil => intro acc; rfl
  | cons m rest ih =>
    intro acc
    by_cases hd : (m.isDirFlag || m.isLnkFlag || m.isSymFlag) = true
    · have hne : (!(m.isDirFlag || m.isLnkFlag || m.isSymFlag)) = false := by
        simp [hd]
      simp only [processTarMembers, List.foldl_cons, hd, if_true,
        List.filter_cons, hne, Bool.false_eq_true, if_false]
      exact ih acc
    · have hdd : (m.isDirFlag || m.isLnkFlag || m.isSymFlag) = false :=
        Bool.eq_false_iff.mpr hd
      have hne : (!(m.isDirFlag || m.isLnkFlag || m.isSymFlag)) = true := by
        simp [hdd]
      simp only [processTarMembers, List.foldl_cons, hdd, Bool.false_eq_true,
        if_false, List.filter_cons, hne, if_true, List.map_cons]
      exact ih (import_file gs owner acc m.name m.content)

/-- C2: a taken destination (file on disk or row in the DB at that exact
path) makes `store_file_from_archive` raise `FileExistsError` with no state
change, and re-importing the same archive against the state produced by a
first import yields zero successes, one failure per processed entry, and an
unchanged state (bytes intact) — for zip and tar archives alike. -/
theorem C2_reimport_is_all_conflicts :
    (∀ (st : St) (c : List Nat) (p : Str) (o : Option Nat),
      c ≠ [] → sanitize_archive_path p ≠ [] →
      pathTaken st (sanitize_archive_path p) →
      (store_file_from_archive st c p o).1 = st ∧
      ((store_file_from_archive st c p o).2 =
          .error (.existsOnDisk (sanitize_archive_path p)) ∨
        (store_file_from_archive st c p o).2 =
          .error (.existsInDb (sanitize_archive_path p)))) ∧
    (∀ (st : St) (gs : Option GroupSettings) (o : Option Nat)
        (ms : List ZipMember),
      (bulk_upload_zip (bulk_upload_zip st gs o ms).1 gs o ms).1 =
        (bulk_upload_zip st gs o ms).1 ∧
      (bulk_upload_zip (bulk_upload_zip st gs o ms).1 gs o ms).2.success = 0 ∧
      (bulk_upload_zip (bulk_upload_zip st gs o ms).1 gs o ms).2.failed =
        ms.countP (fun m =>
          entryProcessedB m.filename m.content && !zipMemberIsDir m)) ∧
    (∀ (st : St) (gs : Option GroupSettings) (o : Option Nat)
        (ms : List TarMember),
      (bulk_upload_tar (bulk_upload_tar st gs o ms).1 gs o ms).1 =
        (bulk_upload_tar st gs o ms).1 ∧
      (bulk_upload_tar (bulk_upload_tar st gs o ms).1 gs o ms).2.success = 0 ∧
      (bulk_upload_tar (bulk_upload_tar st gs o ms).1 gs o ms).2.failed =
        ms.countP (fun m =>
          entryProcessedB m.name m.content &&
            !(m.isDirFlag || m.isLnkFlag || m.isSymFlag))) := by
  refine ⟨?_, ?_, ?_⟩
  · intro st c p o hc hs hpt
    rcases store_archive_conflict_eq st c p o hc hs hpt with he | he
    · rw [he]
      exact ⟨rfl, Or.inl rfl⟩
    · rw [he]
      exact ⟨rfl, Or.inr rfl⟩
  · intro st gs o ms
    have hb : ∀ acc, processZipMembers gs o acc ms =
        runEntries gs o acc
          ((ms.filter (fun m => !zipMemberIsDir m)).map
            (fun m => (m.filename, m.content))) :=
      fun acc => processZip_eq_runEntries gs o ms acc
    have h1st : (bulk_upload_zip st gs o ms).1 =
        (runEntries gs o ⟨st, 0, 0, []⟩
          ((ms.filter (fun m => !zipMemberIsDir m)).map
            (fun m => (m.filename, m.content)))).st := by
      simp [bulk_upload_zip, hb]
    have hdead : ∀ e ∈ (ms.filter (fun m => !zipMemberIsDir m)).map
          (fun m => (m.filename, m.content)),
        entryProcessedB e.1 e.2 = true →
        deadEntry gs (bulk_upload_zip st gs o ms).1 e.1 e.2 := by
      intro e he hp
      rw [h1st]
      exact runEntries_makes_dead gs o _ ⟨st, 0, 0, []⟩ e he hp
    obtain ⟨g1, g2, g3⟩ :=
      runEntries_all_dead gs o
        ((ms.filter (fun m => !zipMemberIsDir m)).map
          (fun m => (m.filename, m.content)))
        ⟨(bulk_upload_zip st gs o ms).1, 0, 0, []⟩
        (fun e he hp => hdead e he hp)
    rw [h1st] at g1 g2 g3
    refine ⟨?_, ?_, ?_⟩
    · simp only [bulk_upload_zip, hb]
      exact g1
    · simp only [bulk_upload_zip, hb]
      exact g2
    · simp only [bulk_upload_zip, hb]
      rw [g3]
      simp [List.countP_map, List.countP_filter, Function.comp]
  · intro st gs o ms
    have hb : ∀ acc, processTarMembers gs o acc ms =
        runEntries gs o acc
          ((ms.filter (fun m => !(m.isDirFlag || m.isLnkFlag || m.isSymFlag))).map
            (fun m => (m.name, m.content))) :=
      fun acc => processTar_eq_runEntries gs o ms acc
    have h1st : (bulk_upload_tar st gs o ms).1 =
        (runEntries gs o ⟨st, 0, 0, []⟩
          ((ms.filter (fun m => !(m.isDirFlag || m.isLnkFlag || m.isSymFlag))).map
            (fun m => (m.name, m.content)))).st := by
      simp [bulk_upload_tar, hb]
    have hdead : ∀ e ∈ (ms.filter
            (fun m => !(m.isDirFlag || m.isLnkFlag || m.isSymFlag))).map
          (fun m => (m.name, m.content)),
        entryProcessedB e.1 e.2 = true →
        deadEntry gs (bulk_upload_tar st gs o ms).1 e.1 e.2 := by
      intro e he hp
      rw [h1st]
      exact runEntries_makes_dead gs o _ ⟨st, 0, 0, []⟩ e he hp
    obtain ⟨g1, g2, g3⟩ :=
      runEntries_all_dead gs o
        ((ms.filter (fun m => !(m.isDirFlag || m.isLnkFlag || m.isSymFlag))).map
          (fun m => (m.name, m.content)))
        ⟨(bulk_upload_tar st gs o ms).1, 0, 0, []⟩
        (fun e he hp => hdead e he hp)
    rw [h1st] at g1 g2 g3
    refine ⟨?_, ?_, ?_⟩
    · simp only [bulk_upload_tar, hb]
      exact g1
    · simp only [bulk_upload_tar, hb]
      exact g2
    · simp only [bulk_upload_tar, hb]
      rw [g3]
      simp [List.countP_map, List.countP_filter, Function.comp]

/-- Witness for C2 at a concrete conflict: importing `"a.png"` into a state
whose disk already holds `"a.png"` raises `FileExistsError` and leaves the
state unchanged. -/
theorem C2_reimport_is_all_conflicts_witness :
    (store_file_from_archive
        ⟨[(lit "a.png", [1])], [], [], [], 1, []⟩ [2] (lit "a.png") none).1 =
      ⟨[(lit "a.png", [1])], [], [], [], 1, []⟩ ∧
    ((store_file_from_archive
        ⟨[(lit "a.png", [1])], [], [], [], 1, []⟩ [2] (lit "a.png") none).2 =
        .error (.existsOnDisk (sanitize_archive_path (lit "a.png"))) ∨
      (store_file_from_archive
        ⟨[(lit "a.png", [1])], [], [], [], 1, []⟩ [2] (lit "a.png") none).2 =
        .error (.existsInDb (sanitize_archive_path (lit "a.png")))) :=
  C2_reimport_is_all_conflicts.1
    ⟨[(lit "a.png", [1])], [], [], [], 1, []⟩ [2] (lit "a.png") none
    (by decide) (by decide) (by decide)

/-! ## Per-entry isolation of bulk import (claim C5) -/

/-- The post-store `file_type` update also leaves the list of stored paths
unchanged. -/
theorem map_path_updateFirst (pr : FileRec → Bool) (ft : FileType)
    (l : List FileRec) :
    (updateFirst pr (fun f => { f with file_type := ft }) l).map
        (fun g => g.path) =
      l.map (fun g => g.path) := by
  induction l with
  | nil => rfl
  | cons x xs ih =>
    unfold updateFirst
    by_cases hx : pr x
    · simp [hx]
    · simp [hx, ih]

theorem import_file_disk_mono (gs : Option GroupSettings)
    (owner : Option Nat) (acc : ImportAcc) (name : Str) (data : List Nat)
    (x : Str × List Nat) (h : x ∈ acc.st.disk) :
    x ∈ (import_file gs owner acc name data).st.disk := by
  unfold import_file
  by_cases h1 : name = [] ∨ name.getLast? = some '/'
  · rw [if_pos h1]
    exact h
  · rw [if_neg h1]
    by_cases h2 : data = []
    · rw [if_pos h2]
      exact h
    · rw [if_neg h2]
      cases hv : validate_upload data.length name gs with
      | some r => exact h
      | none =>
        dsimp only
        rcases hstore : store_file_from_archive acc.st data name owner with ⟨st1, r⟩
        have hd : st1.disk = acc.st.disk ∨
            st1.disk = (sanitize_archive_path name, data) :: acc.st.disk := by
          by_cases hs : sanitize_archive_path name = []
          · rw [store_archive_invalid acc.st data name owner h2 hs] at hstore
            injection hstore with he _
            left
            rw [← he]
          · by_cases hpt : pathTaken acc.st (sanitize_archive_path name)
            · rcases store_archive_conflict_eq acc.st data name owner h2 hs hpt with
                he | he <;> rw [he] at hstore <;>
                { injection hstore with hh _
                  left
                  rw [← hh] }
            · rw [store_archive_success acc.st data name owner h2 hs hpt] at hstore
              injection hstore with hh _
              right
              rw [← hh]
        cases r with
        | error e =>
          dsimp only
          rcases hd with hd | hd <;> rw [hd]
          · exact h
          · exact List.mem_cons_of_mem _ h
        | ok fr =>
          dsimp only
          split <;>
          · rcases hd with hd | hd <;> rw [hd]
            · exact h
            · exact List.mem_cons_of_mem _ h

theorem import_file_paths_mono (gs : Option GroupSettings)
    (owner : Option Nat) (acc : ImportAcc) (name : Str) (data : List Nat)
    (q : Str) (h : q ∈ acc.st.files.map (fun g => g.path)) :
    q ∈ (import_file gs owner acc name data).st.files.map (fun g => g.path) := by
  unfold import_file
  by_cases h1 : name = [] ∨ name.getLast? = some '/'
  · rw [if_pos h1]
    exact h
  · rw [if_neg h1]
    by_cases h2 : data = []
    · rw [if_pos h2]
      exact h
    · rw [if_neg h2]
      cases hv : validate_upload data.length name gs with
      | some r => exact h
      | none =>
        dsimp only
        by_cases hs : sanitize_archive_path name = []
        · rw [store_archive_invalid acc.st data name owner h2 hs]
          exact h
        · by_cases hpt : pathTaken acc.st (sanitize_archive_path name)
          · rcases store_archive_conflict_eq acc.st data name owner h2 hs hpt with
              he | he <;> rw [he] <;> exact h
          · rw [store_archive_success acc.st data name owner h2 hs hpt]
            dsimp only
            split <;>
            · rw [map_path_updateFirst]
              simp only [List.map_cons]
              exact List.mem_cons_of_mem _ h

/-- Each `_import_file` call either leaves the report lines alone (skip or
success) or appends exactly one line made of the entry name, a tab, and the
reason. -/
theorem import_file_lines_shape (gs : Option GroupSettings)
    (owner : Option Nat) (acc : ImportAcc) (name : Str) (data : List Nat) :
    (import_file gs owner acc name data).lines = acc.lines ∨
      ∃ reason : Str,
        (import_file gs owner acc name data).lines =
          acc.lines ++ [name ++ '\t' :: reason] := by
  unfold import_file
  by_cases h1 : name = [] ∨ name.getLast? = some '/'
  · rw [if_pos h1]
    exact Or.inl rfl
  · rw [if_neg h1]
    by_cases h2 : data = []
    · rw [if_pos h2]
      exact Or.inl rfl
    · rw [if_neg h2]
      cases hv : validate_upload data.length name gs with
      | some r => exact Or.inr ⟨rejectionMsg r, rfl⟩
      | none =>
        dsimp only
        rcases hstore : store_file_from_archive acc.st data name owner with ⟨st1, r⟩
        cases r with
        | error e => exact Or.inr ⟨storageErrMsg e, rfl⟩
        | ok fr => exact Or.inl rfl

theorem runEntries_disk_mono (gs : Option GroupSettings) (owner : Option Nat)
    (es : List (Str × List Nat)) :
    ∀ (acc : ImportAcc) (x : Str × List Nat), x ∈ acc.st.disk →
      x ∈ (runEntries gs owner acc es).st.disk := by
  induction es with
  | nil => intro acc x h; exact h
  | cons e rest ih =>
    intro acc x h
    exact ih _ x (import_file_disk_mono gs owner acc e.1 e.2 x h)

theorem runEntries_paths_mono (gs : Option GroupSettings) (owner : Option Nat)
    (es : List (Str × List Nat)) :
    ∀ (acc : ImportAcc) (q : Str), q ∈ acc.st.files.map (fun g => g.path) →
      q ∈ (runEntries gs owner acc es).st.files.map (fun g => g.path) := by
  induction es with
  | nil => intro acc q h; exact h
  | cons e rest ih =>
    intro acc q h
    exact ih _ q (import_file_paths_mono gs owner acc e.1 e.2 q h)

/-- C5: bulk import isolates per-entry failures — a failing entry
contributes exactly one `"<name>\t<reason>"` report line and nothing else,
entries appended later in the batch can never remove bytes written by
earlier successes, and the worked three-entry archive (allowed `a.png`,
disallowed `b.exe`, duplicate `a.png`) produces `{success: 1, failed: 2}`
with the report `"1/3 success"`, `"2 failed"`, and the two failure lines. -/
theorem C5_bulk_import_isolation_and_report :
    (∀ (gs : Option GroupSettings) (owner : Option Nat) (acc : ImportAcc)
        (name : Str) (data : List Nat),
      (import_file gs owner acc name data).lines = acc.lines ∨
        ∃ reason : Str,
          (import_file gs owner acc name data).lines =
            acc.lines ++ [name ++ '\t' :: reason]) ∧
    (∀ (gs : Option GroupSettings) (owner : Option Nat) (acc : ImportAcc)
        (es1 es2 : List (Str × List Nat)) (x : Str × List Nat),
      x ∈ (runEntries gs owner acc es1).st.disk →
      x ∈ (runEntries gs owner acc (es1 ++ es2)).st.disk) ∧
    (bulk_upload_zip ⟨[], [], [], [], 1, []⟩
        (some ⟨some 1000, [lit "png"]⟩) (some 7)
        [⟨lit "a.png", List.replicate 200 0, false⟩,
         ⟨lit "b.exe", List.replicate 300 0, false⟩,
         ⟨lit "a.png", List.replicate 200 0, false⟩]).2 =
      ⟨1, 2,
        lit "1/3 success\n2 failed\n\nb.exe\tFile extension .exe is not allowed. Allowed list: png\na.png\tFile already exists on disk: a.png"⟩ := by
  refine ⟨?_, ?_, by decide⟩
  · intro gs owner acc name data
    exact import_file_lines_shape gs owner acc name data
  · intro gs owner acc es1 es2 x hx
    have hsplit : runEntries gs owner acc (es1 ++ es2) =
        runEntries gs owner (runEntries gs owner acc es1) es2 := by
      simp [runEntries, List.foldl_append]
    rw [hsplit]
    exact runEntries_disk_mono gs owner es2 _ x hx

/-- Witness for C5 at a concrete two-pass batch: the file written by the
first entry survives a later conflicting entry. -/
theorem C5_bulk_import_isolation_and_report_witness :
    (lit "a", [1]) ∈
      (runEntries none none ⟨⟨[], [], [], [], 1, []⟩, 0, 0, []⟩
        ([(lit "a", [1])] ++ [(lit "a", [2])])).st.disk :=
  C5_bulk_import_isolation_and_report.2.1 none none
    ⟨⟨[], [], [], [], 1, []⟩, 0, 0, []⟩
    [(lit "a", [1])] [(lit "a", [2])] (lit "a", [1]) (by decide)

/-- C4: the single-upload pipeline is atomic with respect to failures — a
policy rejection (413 for size, 400 for extension) returns with the state
exactly as it was, before any disk or DB mutation; and a failed physical
write in `store_new_file` surfaces as a server error with no `files` row,
no preview row, and no scheduled task (the write strictly precedes row
creation and commit). -/
theorem C4_single_upload_atomic :
    (∀ (st : St) (contents : List Nat) (filename : Str)
        (gs : Option GroupSettings) (owner : Option Nat) (tmpl : Option Str)
        (now : PyDateTime) (hashed : Str) (writeOk : Bool)
        (failDisk : List (Str × List Nat)) (n m : Nat),
      contents ≠ [] →
      validate_upload contents.length filename gs = some (.sizeExceeded n m) →
      upload_file st contents filename gs owner tmpl now hashed writeOk failDisk =
        (st, .error (.payloadTooLarge (rejectionMsg (.sizeExceeded n m))))) ∧
    (∀ (st : St) (contents : List Nat) (filename : Str)
        (gs : Option GroupSettings) (owner : Option Nat) (tmpl : Option Str)
        (now : PyDateTime) (hashed : Str) (writeOk : Bool)
        (failDisk : List (Str × List Nat)) (e : Str) (a : List Str),
      contents ≠ [] →
      validate_upload contents.length filename gs =
        some (.extensionNotAllowed e a) →
      upload_file st contents filename gs owner tmpl now hashed writeOk failDisk =
        (st, .error (.badRequest (rejectionMsg (.extensionNotAllowed e a))))) ∧
    (∀ (st : St) (contents : List Nat) (filename : Str)
        (gs : Option GroupSettings) (owner : Option Nat) (tmpl : Option Str)
        (now : PyDateTime) (hashed : Str) (failDisk : List (Str × List Nat)),
      contents ≠ [] →
      validate_upload contents.length filename gs = none →
      (upload_file st contents filename gs owner tmpl now hashed false
          failDisk).1.files = st.files ∧
      (upload_file st contents filename gs owner tmpl now hashed false
          failDisk).1.filePreviews = st.filePreviews ∧
      (upload_file st contents filename gs owner tmpl now hashed false
          failDisk).1.tasks = st.tasks ∧
      (upload_file st contents filename gs owner tmpl now hashed false
          failDisk).2 = .error .serverError) := by
  refine ⟨?_, ?_, ?_⟩
  · intro st contents filename gs owner tmpl now hashed writeOk failDisk n m hc hv
    simp [upload_file, hc, hv]
  · intro st contents filename gs owner tmpl now hashed writeOk failDisk e a hc hv
    simp [upload_file, hc, hv]
  · intro st contents filename gs owner tmpl now hashed failDisk hc hv
    have hstore : store_new_file st contents filename owner tmpl now hashed
        false failDisk = ({ st with disk := failDisk }, .error .diskWriteFailure) := by
      simp [store_new_file, hc]
    refine ⟨?_, ?_, ?_, ?_⟩ <;> simp [upload_file, hc, hv, hstore]

/-- Witness for C4 at a concrete oversized upload: a 2-byte file against a
1-byte limit is rejected with 413 and the state is returned untouched. -/
theorem C4_single_upload_atomic_witness :
    upload_file ⟨[], [], [], [], 1, []⟩ [0, 0] (lit "a.png")
        (some ⟨some 1, []⟩) (some 7) none ⟨2025, 1, 1, 0, 0, 0⟩ (lit "h")
        true [] =
      (⟨[], [], [], [], 1, []⟩,
       .error (.payloadTooLarge (rejectionMsg (.sizeExceeded 2 1)))) :=
  C4_single_upload_atomic.1 ⟨[], [], [], [], 1, []⟩ [0, 0] (lit "a.png")
    (some ⟨some 1, []⟩) (some 7) none ⟨2025, 1, 1, 0, 0, 0⟩ (lit "h") true []
    2 1 (by decide) (by decide)

/-! ## Preview best-effort behaviour (claim C6) -/

/-- At most one preview row per `(file_id, preview_type)` pair. -/
def previewKeysUnique (l : List FilePreviewRec) : Prop :=
  (l.map (fun q => (q.file_id, q.preview_type))).Nodup

/-- A corrupt or undecodable image makes the whole thumbnail path a no-op:
the bare `except: pass` swallows the failure before any row or field is
touched. -/
theorem generate_image_thumbnail_corrupt (st : St) (fid : Nat) (w h : Nat) :
    generate_image_thumbnail st fid false w h = st := by
  unfold generate_image_thumbnail
  cases hf : st.files.find? (fun f => f.id == fid) with
  | none => rfl
  | some f =>
    dsimp only
    by_cases h1 : f.path = []
    · rw [if_pos h1]
    · rw [if_neg h1]
      by_cases h2 : (lookupDisk st.disk f.path).isNone = true
      · rw [if_pos h2]
      · rw [if_neg h2]
        simp

theorem generate_preview_corrupt (st : St) (fid : Nat) (w h : Nat) :
    generate_preview_in_background st fid false w h = st := by
  unfold generate_preview_in_background
  cases hf : st.files.find? (fun f => f.id == fid) with
  | none => rfl
  | some f =>
    dsimp only
    by_cases himg : f.file_type = FileType.IMAGE
    · rw [if_pos himg]
      exact generate_image_thumbnail_corrupt st fid w h
    · rw [if_neg himg]

/-- The in-place preview update preserves both keys of every row. -/
theorem map_key_updateFirst (pr : FilePreviewRec → Bool) (pname : Str)
    (w h : Nat) (l : List FilePreviewRec) :
    ((updateFirst pr
        (fun q => { q with storage_path := pname, width := w, height := h })
        l).map (fun q => (q.file_id, q.preview_type))) =
      l.map (fun q => (q.file_id, q.preview_type)) := by
  induction l with
  | nil => rfl
  | cons x xs ih =>
    unfold updateFirst
    by_cases hx : pr x
    · simp [hx]
    · simp [hx, ih]

/-- Preview generation never schedules anything: the `tasks` queue is
untouched by the background path. -/
theorem generate_preview_tasks (st : St) (fid : Nat) (d : Bool) (w h : Nat) :
    (generate_preview_in_background st fid d w h).tasks = st.tasks := by
  unfold generate_preview_in_background generate_image_thumbnail
  cases hf : st.files.find? (fun f => f.id == fid) with
  | none => rfl
  | some f =>
    dsimp only
    by_cases himg : f.file_type = FileType.IMAGE
    · rw [if_pos himg]
      by_cases h1 : f.path = []
      · rw [if_pos h1]
      · rw [if_neg h1]
        by_cases h2 : (lookupDisk st.disk f.path).isNone = true
        · rw [if_pos h2]
        · rw [if_neg h2]
          by_cases h3 : d = true
          · subst h3
            simp
          · have hd0 : d = false := Bool.eq_false_iff.mpr h3
            subst hd0
            simp
    · rw [if_neg himg]

/-- Upserting the thumbnail row preserves key uniqueness. -/
theorem thumbnail_preserves_unique (st : St) (fid : Nat) (d : Bool)
    (w h : Nat) (hinv : previewKeysUnique st.filePreviews) :
    previewKeysUnique (generate_image_thumbnail st fid d w h).filePreviews := by
  unfold generate_image_thumbnail
  cases hf : st.files.find? (fun f => f.id == fid) with
  | none => exact hinv
  | some f =>
    dsimp only
    by_cases h1 : f.path = []
    · rw [if_pos h1]
      exact hinv
    · rw [if_neg h1]
      by_cases h2 : (lookupDisk st.disk f.path).isNone = true
      · rw [if_pos h2]
        exact hinv
      · rw [if_neg h2]
        by_cases h3 : d = true
        · subst h3
          rw [if_neg (show ¬¬((true : Bool) = true) from fun hc => hc rfl)]
          cases hq : st.filePreviews.find?
              (fun q => q.file_id == fid &&
                q.preview_type == lit "thumbnail_256") with
          | none =>
            dsimp only [previewKeysUnique]
            rw [List.map_append]
            have hnotin : (fid, lit "thumbnail_256") ∉
                st.filePreviews.map (fun q => (q.file_id, q.preview_type)) := by
              intro hmem
              obtain ⟨q, hq1, hq2⟩ := List.mem_map.mp hmem
              have := List.find?_eq_none.mp hq q hq1
              simp only [Bool.and_eq_true, beq_iff_eq] at this
              injection hq2 with ha hb
              exact this ⟨ha, hb⟩
            simp only [List.map_cons, List.map_nil]
            have hperm : ((fid, lit "thumbnail_256") ::
                st.filePreviews.map (fun q => (q.file_id, q.preview_type))).Nodup := by
              exact List.Nodup.cons hnotin hinv
            exact (List.nodup_append_comm).mp (by simpa using hperm)
          | some q0 =>
            dsimp only [previewKeysUnique]
            rw [map_key_updateFirst]
            exact hinv
        · have hd0 : d = false := Bool.eq_false_iff.mpr h3
          subst hd0
          rw [if_pos (show ¬((false : Bool) = true) from by simp)]
          exact hinv

/-- C6: preview generation is best-effort — a failing thumbnail path
(corrupt image) is swallowed and changes nothing, so the triggering upload
still succeeds and the parent row keeps `has_preview = false` with no
preview fields set; the preview path never (re)schedules tasks, so nothing
retries it; and the upsert keeps at most one `PreviewRecord` per
`(file, preview_kind)` pair.  The last conjunct runs the whole scenario on
a corrupt `"x.png"`: the upload returns success, the row has
`has_preview = false`, exactly one preview task was queued, and the failing
background task leaves the state untouched. -/
theorem C6_preview_best_effort :
    (∀ (st : St) (fid : Nat) (w h : Nat),
      generate_preview_in_background st fid false w h = st) ∧
    (∀ (st : St) (fid : Nat) (d : Bool) (w h : Nat),
      (generate_preview_in_background st fid d w h).tasks = st.tasks) ∧
    (∀ (st : St) (fid : Nat) (d : Bool) (w h : Nat),
      previewKeysUnique st.filePreviews →
      previewKeysUnique
        (generate_preview_in_background st fid d w h).filePreviews) ∧
    ((upload_file ⟨[], [], [], [], 1, []⟩ [9] (lit "x.png") none (some 1)
        none ⟨2025, 4, 7, 3, 5, 9⟩ (lit "h") true []).2 = .ok 1 ∧
      ((upload_file ⟨[], [], [], [], 1, []⟩ [9] (lit "x.png") none (some 1)
          none ⟨2025, 4, 7, 3, 5, 9⟩ (lit "h") true []).1.files.find?
            (fun f => f.id == 1)).map
          (fun f => (f.has_preview, f.default_preview_path)) =
        some (false, none) ∧
      (upload_file ⟨[], [], [], [], 1, []⟩ [9] (lit "x.png") none (some 1)
          none ⟨2025, 4, 7, 3, 5, 9⟩ (lit "h") true []).1.tasks = [1] ∧
      generate_preview_in_background
          (upload_file ⟨[], [], [], [], 1, []⟩ [9] (lit "x.png") none (some 1)
            none ⟨2025, 4, 7, 3, 5, 9⟩ (lit "h") true []).1 1 false 16 16 =
        (upload_file ⟨[], [], [], [], 1, []⟩ [9] (lit "x.png") none (some 1)
          none ⟨2025, 4, 7, 3, 5, 9⟩ (lit "h") true []).1) := by
  refine ⟨?_, ?_, ?_, by decide, by decide, by decide, by decide⟩
  · intro st fid w h
    exact generate_preview_corrupt st fid w h
  · intro st fid d w h
    exact generate_preview_tasks st fid d w h
  · intro st fid d w h hinv
    unfold generate_preview_in_background
    cases hf : st.files.find? (fun f => f.id == fid) with
    | none => exact hinv
    | some f =>
      dsimp only
      by_cases himg : f.file_type = FileType.IMAGE
      · rw [if_pos himg]
        exact thumbnail_preserves_unique st fid d w h hinv
      · rw [if_neg himg]
        exact hinv

/-- Witness for C6 at a concrete state: the uniqueness invariant survives a
successful thumbnail generation over an image row whose bytes exist. -/
theorem C6_preview_best_effort_witness :
    previewKeysUnique
      (generate_preview_in_background
        ⟨[(lit "a/x.png", [9])], [],
         [⟨1, 1, FileType.IMAGE, lit "a/x.png", some 1, lit "x.png",
           false, none⟩], [], 2, []⟩ 1 true 16 16).filePreviews :=
  C6_preview_best_effort.2.2.1
    ⟨[(lit "a/x.png", [9])], [],
     [⟨1, 1, FileType.IMAGE, lit "a/x.png", some 1, lit "x.png",
       false, none⟩], [], 2, []⟩ 1 true 16 16
    (by simp [previewKeysUnique])

/-! ## Directory pruning after deletion (claim C8) -/

theorem cleanupWalk_missing (fs : UploadsFS) (d : SegPath)
    (rest : List SegPath) (h : d ∉ fs.dirs) :
    cleanupWalk fs (d :: rest) = fs := by
  unfold cleanupWalk
  rw [if_pos h]

theorem cleanupWalk_nonempty (fs : UploadsFS) (d : SegPath)
    (rest : List SegPath) (h : dirNonEmpty fs d = true) :
    cleanupWalk fs (d :: rest) = fs := by
  unfold cleanupWalk
  by_cases hm : d ∉ fs.dirs
  · rw [if_pos hm]
  · rw [if_neg hm, if_pos h]

theorem cleanupWalk_files : ∀ (l : List SegPath) (fs : UploadsFS),
    (cleanupWalk fs l).files = fs.files := by
  intro l
  induction l with
  | nil => intro fs; rfl
  | cons d rest ih =>
    intro fs
    unfold cleanupWalk
    by_cases hm : d ∉ fs.dirs
    · rw [if_pos hm]
    · rw [if_neg hm]
      by_cases hne : dirNonEmpty fs d = true
      · rw [if_pos hne]
      · rw [if_neg hne]
        exact ih _

theorem cleanupWalk_dirs_subset : ∀ (l : List SegPath) (fs : UploadsFS),
    (cleanupWalk fs l).dirs ⊆ fs.dirs := by
  intro l
  induction l with
  | nil => intro fs x hx; exact hx
  | cons d rest ih =>
    intro fs
    unfold cleanupWalk
    by_cases hm : d ∉ fs.dirs
    · rw [if_pos hm]
      exact fun x hx => hx
    · rw [if_neg hm]
      by_cases hne : dirNonEmpty fs d = true
      · rw [if_pos hne]
        exact fun x hx => hx
      · rw [if_neg hne]
        intro x hx
        exact List.erase_subset d fs.dirs
          (ih { fs with dirs := fs.dirs.erase d } hx)

theorem cleanupWalk_removed_mem : ∀ (l : List SegPath) (fs : UploadsFS)
    (d : SegPath), d ∈ fs.dirs → d ∉ (cleanupWalk fs l).dirs → d ∈ l := by
  intro l
  induction l with
  | nil =>
    intro fs d hd hnot
    exact absurd hd hnot
  | cons x rest ih =>
    intro fs d hd hnot
    unfold cleanupWalk at hnot
    by_cases hm : x ∉ fs.dirs
    · rw [if_pos hm] at hnot
      exact absurd hd hnot
    · rw [if_neg hm] at hnot
      by_cases hne : dirNonEmpty fs x = true
      · rw [if_pos hne] at hnot
        exact absurd hd hnot
      · rw [if_neg hne] at hnot
        by_cases hdx : d = x
        · exact List.mem_cons.mpr (Or.inl hdx)
        · have hd2 : d ∈ fs.dirs.erase x :=
            (List.mem_erase_of_ne hdx).mpr hd
          exact List.mem_cons.mpr
            (Or.inr (ih { fs with dirs := fs.dirs.erase x } d hd2 hnot))

theorem ancestorChainF_ne_nil : ∀ (fuel : Nat) (p : SegPath),
    ∀ d ∈ ancestorChainF fuel p, d ≠ [] := by
  intro fuel
  induction fuel with
  | zero =>
    intro p d hd
    simp [ancestorChainF] at hd
  | succ n ih =>
    intro p d hd
    cases p with
    | nil => simp [ancestorChainF] at hd
    | cons x xs =>
      simp only [ancestorChainF, List.mem_cons] at hd
      rcases hd with hd | hd
      · subst hd
        simp
      · exact ih _ d hd

/-- C8: the deletion-side pruning walk — a file already missing on disk is
not an error (no-op); deleting a file whose directory still holds another
file removes nothing but the file itself; pruning only ever removes
directories (never creating any, never touching other files), never
removes the root; the walk stops at a missing directory (`OSError`,
swallowed) and at the first non-empty directory; and the §8 scenario holds:
with two files under `2025/04`, the first deletion keeps both directories
and the second deletion prunes `2025/04` and `2025`. -/
theorem C8_delete_prunes_empty_dirs :
    (∀ (fs : UploadsFS) (p : SegPath), p ∉ fs.files →
      delete_physical_file fs p = fs) ∧
    (∀ (fs : UploadsFS) (p q : SegPath), q ∈ fs.files → q ≠ p →
      q.dropLast = p.dropLast →
      delete_physical_file fs p = ⟨fs.files.erase p, fs.dirs⟩) ∧
    (∀ (fs : UploadsFS) (p : SegPath),
      (delete_physical_file fs p).dirs ⊆ fs.dirs ∧
      (delete_physical_file fs p).files =
        (if p ∈ fs.files then fs.files.erase p else fs.files) ∧
      (∀ d ∈ fs.dirs, d ∉ (delete_physical_file fs p).dirs → d ≠ [])) ∧
    (∀ (fs : UploadsFS) (d : SegPath) (rest : List SegPath),
      (d ∉ fs.dirs → cleanupWalk fs (d :: rest) = fs) ∧
      (dirNonEmpty fs d = true → cleanupWalk fs (d :: rest) = fs)) ∧
    ((delete_physical_file
        ⟨[[lit "2025", lit "04", lit "a"], [lit "2025", lit "04", lit "b"]],
         [[lit "2025"], [lit "2025", lit "04"]]⟩
        [lit "2025", lit "04", lit "a"] =
      ⟨[[lit "2025", lit "04", lit "b"]],
       [[lit "2025"], [lit "2025", lit "04"]]⟩) ∧
      (delete_physical_file
        ⟨[[lit "2025", lit "04", lit "b"]],
         [[lit "2025"], [lit "2025", lit "04"]]⟩
        [lit "2025", lit "04", lit "b"] = ⟨[], []⟩)) := by
  refine ⟨?_, ?_, ?_, ?_, by decide, by decide⟩
  · intro fs p hp
    unfold delete_physical_file
    rw [if_neg hp]
  · intro fs p q hq hne hdir
    unfold delete_physical_file
    by_cases hp : p ∈ fs.files
    · rw [if_pos hp]
      unfold cleanup_empty_dirs ancestorChain
      cases hd : p.dropLast with
      | nil => rfl
      | cons x xs =>
        simp only [List.length_cons, ancestorChainF]
        have hq2 : q ∈ fs.files.erase p := (List.mem_erase_of_ne hne).mpr hq
        have hnonempty :
            dirNonEmpty ⟨fs.files.erase p, fs.dirs⟩ (x :: xs) = true := by
          unfold dirNonEmpty
          have : (fs.files.erase p).any (fun f => f.dropLast == x :: xs) = true := by
            rw [List.any_eq_true]
            refine ⟨q, hq2, ?_⟩
            rw [beq_iff_eq, hdir, hd]
          rw [this]
          rfl
        exact cleanupWalk_nonempty _ _ _ hnonempty
    · rw [if_neg hp]
      have : fs.files.erase p = fs.files := List.erase_of_not_mem hp
      rw [this]
  · intro fs p
    unfold delete_physical_file
    by_cases hp : p ∈ fs.files
    · rw [if_pos hp, if_pos hp]
      unfold cleanup_empty_dirs
      refine ⟨cleanupWalk_dirs_subset _ _, cleanupWalk_files _ _, ?_⟩
      intro d hd hnot
      have hmem : d ∈ ancestorChain p.dropLast :=
        cleanupWalk_removed_mem (ancestorChain p.dropLast)
          ⟨fs.files.erase p, fs.dirs⟩ d hd hnot
      exact ancestorChainF_ne_nil _ _ d hmem
    · rw [if_neg hp, if_neg hp]
      exact ⟨fun x hx => hx, rfl, fun d hd hnot => absurd hd hnot⟩
  · intro fs d rest
    exact ⟨cleanupWalk_missing fs d rest, cleanupWalk_nonempty fs d rest⟩

/-- Witness for C8 at a concrete deletion: removing one of two files that
share a directory erases only that file and keeps every directory. -/
theorem C8_delete_prunes_empty_dirs_witness :
    delete_physical_file
        ⟨[[lit "a", lit "f1"], [lit "a", lit "f2"]], [[lit "a"]]⟩
        [lit "a", lit "f1"] =
      ⟨[[lit "a", lit "f2"]], [[lit "a"]]⟩ := by
  have h := C8_delete_prunes_empty_dirs.2.1
    ⟨[[lit "a", lit "f1"], [lit "a", lit "f2"]], [[lit "a"]]⟩
    [lit "a", lit "f1"] [lit "a", lit "f2"]
    (by decide) (by decide) (by decide)
  rw [h]
  decide

/-! ## Entry-skipping rules (claim C9) and the extension inconsistency
(claim C10) -/

theorem takeWhile_all {α : Type} (p : α → Bool) :
    ∀ l : List α, (∀ c ∈ l, p c = true) → l.takeWhile p = l := by
  intro l
  induction l with
  | nil => intro _; rfl
  | cons x xs ih =>
    intro h
    rw [List.takeWhile_cons, h x (List.mem_cons_self _ _),
      ih (fun c hc => h c (List.mem_cons_of_mem _ hc))]
    simp

theorem afterLastDot_no_dot (fn : Str) (h : '.' ∉ fn) :
    afterLastDot fn = fn := by
  unfold afterLastDot
  rw [takeWhile_all _ fn.reverse ?_, List.reverse_reverse]
  intro c hc
  have : c ∈ fn := List.mem_reverse.mp hc
  have hne : c ≠ '.' := fun he => h (he ▸ this)
  simpa using hne

/-- C9 counterexample: a zip member carrying the symlink attribute (which
CPython's `ZipInfo.is_dir` ignores and the source never reads) is imported
as a regular file — the success counter becomes 1 and bytes are written,
contradicting the claim that every symbolic-link entry of every accepted
archive is skipped with no disk write and no counter change. -/
theorem C9_zip_symlink_counterexample :
    (bulk_upload_zip ⟨[], [], [], [], 1, []⟩ none (some 1)
        [⟨lit "link", [47, 101], true⟩]).2.success = 1 ∧
    (bulk_upload_zip ⟨[], [], [], [], 1, []⟩ none (some 1)
        [⟨lit "link", [47, 101], true⟩]).1.disk =
      [(lit "link", [47, 101])] := ⟨by decide, by decide⟩

/-- C9 (amended): tar-side processing skips directory, symlink and
hard-link members; zip-side processing skips exactly the members whose
stored name ends in `"/"` (directories — the symlink attribute is not
consulted); and `_import_file` itself skips empty names, names ending in
`"/"`, and zero-length contents.  Every skipped entry leaves the
accumulator — state, counters and report lines — completely unchanged. -/
theorem C9_skip_rules_amended :
    (∀ (gs : Option GroupSettings) (owner : Option Nat) (acc : ImportAcc)
        (m : TarMember) (ms : List TarMember),
      (m.isDirFlag || m.isLnkFlag || m.isSymFlag) = true →
      processTarMembers gs owner acc (m :: ms) =
        processTarMembers gs owner acc ms) ∧
    (∀ (gs : Option GroupSettings) (owner : Option Nat) (acc : ImportAcc)
        (m : ZipMember) (ms : List ZipMember),
      zipMemberIsDir m = true →
      processZipMembers gs owner acc (m :: ms) =
        processZipMembers gs owner acc ms) ∧
    (∀ (gs : Option GroupSettings) (owner : Option Nat) (acc : ImportAcc)
        (name : Str), import_file gs owner acc name [] = acc) ∧
    (∀ (gs : Option GroupSettings) (owner : Option Nat) (acc : ImportAcc)
        (name : Str) (data : List Nat),
      name = [] ∨ name.getLast? = some '/' →
      import_file gs owner acc name data = acc) := by
  refine ⟨?_, ?_, ?_, ?_⟩
  · intro gs owner acc m ms h
    simp only [processTarMembers, List.foldl_cons, h, if_true]
  · intro gs owner acc m ms h
    simp only [processZipMembers, List.foldl_cons, h, if_true]
  · intro gs owner acc name
    unfold import_file
    by_cases h1 : name = [] ∨ name.getLast? = some '/'
    · rw [if_pos h1]
    · rw [if_neg h1, if_pos rfl]
  · intro gs owner acc name data h
    unfold import_file
    rw [if_pos h]

/-- Witness for the amended C9 at concrete members: a tar symlink member
and a zip directory member are both skipped without any change. -/
theorem C9_skip_rules_amended_witness :
    processTarMembers none none ⟨⟨[], [], [], [], 1, []⟩, 0, 0, []⟩
        [⟨lit "link", false, false, true, [1]⟩] =
      ⟨⟨[], [], [], [], 1, []⟩, 0, 0, []⟩ ∧
    processZipMembers none none ⟨⟨[], [], [], [], 1, []⟩, 0, 0, []⟩
        [⟨lit "d/", [], false⟩] =
      ⟨⟨[], [], [], [], 1, []⟩, 0, 0, []⟩ :=
  ⟨C9_skip_rules_amended.1 none none ⟨⟨[], [], [], [], 1, []⟩, 0, 0, []⟩
      ⟨lit "link", false, false, true, [1]⟩ [] (by decide),
    C9_skip_rules_amended.2.1 none none ⟨⟨[], [], [], [], 1, []⟩, 0, 0, []⟩
      ⟨lit "d/", [], false⟩ [] (by decide)⟩

/-- C10: extension extraction is inconsistent between classification and
policy enforcement — for any dotless filename `guess_file_type_by_extension`
treats the whole (lower-cased) name as the extension while `validate_upload`
uses the empty extension; in particular the file named `"png"` is classified
`IMAGE` and gets a preview task scheduled, though its policy-side extension
is empty. -/
theorem C10_dotless_extension_inconsistency :
    (∀ fn : Str, '.' ∉ fn →
      guessExt fn = lowerStr fn ∧ validateExt fn = []) ∧
    guess_file_type_by_extension (lit "png") = .IMAGE ∧
    validateExt (lit "png") = [] ∧
    (upload_file ⟨[], [], [], [], 1, []⟩ [9] (lit "png") none (some 1)
        none ⟨2025, 4, 7, 3, 5, 9⟩ (lit "h") true []).1.tasks = [1] := by
  refine ⟨?_, by decide, by decide, by decide⟩
  intro fn h
  constructor
  · unfold guessExt
    rw [afterLastDot_no_dot fn h]
  · unfold validateExt
    rw [if_neg h]

/-- Witness for C10 at the dotless name `"png"`: classification-side
extension is the whole name, policy-side extension is empty. -/
theorem C10_dotless_extension_inconsistency_witness :
    guessExt (lit "png") = lowerStr (lit "png") ∧
    validateExt (lit "png") = [] :=
  C10_dotless_extension_inconsistency.1 (lit "png") (by decide)

end Mikaniro
